import Mathlib

/-!
Verification of the CDI (Container Device Interface) registry and injector
against its natural-language specification.

The development shallowly embeds the relevant Go sources:

* `api/producer/identifiers.go` (and the identical copy in
  `api/validator/identifiers.go`): vendor/class/device name validation and
  qualified-name parsing.  Go strings are modelled as `List Char`; the byte
  operations used by the source (`name[0]`, `name[len(name)-1]`,
  `strings.SplitN` with one-character ASCII separators, `strings.IndexByte`
  with `'='`) coincide with the corresponding character operations for
  valid UTF-8 input because an ASCII byte never occurs inside a multi-byte
  UTF-8 sequence.
* `specs-go/parser.go`: the version engine (`MinimumRequiredVersion` with
  the `requiresV0X0` feature detectors).
* `api/producer/validator-default.go`: the default spec validator
  (`validateEdits`, `validateHook`, `validateEnv`, ...).
* `pkg/cdi` (`part_021` of the sources): the cache `Refresh` with
  `resolveConflict`, together with `filepath.Clean` which `Refresh`
  applies to every scanned path.
* `pkg/cdi` annotation handling (`part_022`): `ParseAnnotations`.

A Go function that can hit a runtime panic (a slice access out of range) is
modelled with an explicit `oob` result constructor; a Go function returning
`error` is modelled with an explicit `err`/`ok` result.
-/

set_option autoImplicit false

namespace CDI

/-- Go strings, modelled as lists of characters (see the header comment on
byte/character agreement for the operations used by the embedded code). -/
abbrev GoStr := List Char

/-- `IsLetter` from `api/producer/identifiers.go` (`isLetter`):
`('A' <= c && c <= 'Z') || ('a' <= c && c <= 'z')`. -/
def isLetter (c : Char) : Bool :=
  ('A' ≤ c && c ≤ 'Z') || ('a' ≤ c && c ≤ 'z')

/-- `isDigit` from `api/producer/identifiers.go`: `'0' <= c && c <= '9'`. -/
def isDigit (c : Char) : Bool :=
  '0' ≤ c && c ≤ '9'

/-- `isAlphaNumeric` from `api/producer/identifiers.go`. -/
def isAlphaNumeric (c : Char) : Bool :=
  isLetter c || isDigit c

/-- `strings.SplitN(s, sep, 2)` for a one-character separator, presented as
the split at the first occurrence: `none` when `sep` does not occur (Go
returns a one-element slice then), otherwise the pieces before and after the
first occurrence. -/
def splitOnFirst (sep : Char) : GoStr → Option (GoStr × GoStr)
  | [] => none
  | c :: rest =>
    if c = sep then some ([], rest)
    else
      match splitOnFirst sep rest with
      | none => none
      | some (l, r) => some (c :: l, r)

/-- `strings.Split(s, sep)` for a one-character separator.  Go's `Split` of
the empty string yields one empty piece. -/
def splitAll (sep : Char) : GoStr → List GoStr
  | [] => [[]]
  | c :: rest =>
    if c = sep then [] :: splitAll sep rest
    else
      match splitAll sep rest with
      | [] => [[c]]
      | h :: t => (c :: h) :: t

/-- The last character of a non-empty `GoStr` (`name[len(name)-1]` in Go);
`' '` on the empty string, which the embedded code never reaches. -/
def lastChar : GoStr → Char
  | [] => ' '
  | [c] => c
  | _ :: c :: rest => lastChar (c :: rest)

/-- Result of a Go validation function: `ok` models a `nil` error, `err` a
non-nil error, and `oob` a runtime panic (a string-slice access with
out-of-range bounds). -/
inductive NameRes where
  | ok : NameRes
  | err : NameRes
  | oob : NameRes
  deriving DecidableEq

/-- The character class accepted in the interior of a vendor or class name:
letters, digits, `'_'`, `'-'`, `'.'` (the `switch` in
`validateVendorOrClassName`). -/
def vcInteriorOk (c : Char) : Bool :=
  isAlphaNumeric c || c = '_' || c = '-' || c = '.'

/-- The character class accepted in the interior of a device name:
additionally `':'` (the `switch` in `ValidateDeviceName`). -/
def devInteriorOk (c : Char) : Bool :=
  isAlphaNumeric c || c = '_' || c = '-' || c = '.' || c = ':'

/-- `validateVendorOrClassName` from `api/producer/identifiers.go` (the copy
in `api/validator/identifiers.go` is byte-identical).  The Go source checks
emptiness, then the first byte, and then slices `name[1:len(name)-1]`; when
`len(name) == 1` that slice has bounds `[1:0]`, which is out of range and
panics at run time (modelled by `oob`).  There is no `len(name) == 1` guard
in the source, unlike in `ValidateDeviceName`. -/
def validateVendorOrClassName (name : GoStr) : NameRes :=
  match name with
  | [] => .err
  | c0 :: rest =>
    if !isLetter c0 then .err
    else if rest.isEmpty then .oob
    else if !(rest.dropLast.all vcInteriorOk) then .err
    else if !isAlphaNumeric (lastChar (c0 :: rest)) then .err
    else .ok

/-- `ValidateVendorName` from `api/producer/identifiers.go`: wraps the error
of `validateVendorOrClassName` (the wrapping changes only the message). -/
def ValidateVendorName (vendor : GoStr) : NameRes :=
  validateVendorOrClassName vendor

/-- `ValidateClassName` from `api/producer/identifiers.go`. -/
def ValidateClassName (cls : GoStr) : NameRes :=
  validateVendorOrClassName cls

/-- `ValidateDeviceName` from `api/producer/identifiers.go`.  Note the
explicit `len(name) == 1` early return, which `validateVendorOrClassName`
lacks: device-name validation never panics. -/
def ValidateDeviceName (name : GoStr) : NameRes :=
  match name with
  | [] => .err
  | c0 :: rest =>
    if !isAlphaNumeric c0 then .err
    else if rest.isEmpty then .ok
    else if !(rest.dropLast.all devInteriorOk) then .err
    else if !isAlphaNumeric (lastChar (c0 :: rest)) then .err
    else .ok

/-- `ParseKind` from `api/producer/identifiers.go` (identical to
`ParseQualifier` in `specs-go/parser.go` and `pkg/parser`): split at the
first `/`; on failure return an empty vendor and the verbatim input as the
class. -/
def ParseKind (kind : GoStr) : GoStr × GoStr :=
  match splitOnFirst '/' kind with
  | none => ([], kind)
  | some (v, c) => if v.isEmpty || c.isEmpty then ([], kind) else (v, c)

/-- `parseDevice` from `api/producer/identifiers.go`: split `vendor/class=name`
without validation; on any failure return empty vendor and class and the
verbatim input as the name. -/
def parseDevice (device : GoStr) : GoStr × GoStr × GoStr :=
  match device with
  | [] => ([], [], [])
  | c0 :: _ =>
    if c0 = '/' then ([], [], device)
    else
      match splitOnFirst '=' device with
      | none => ([], [], device)
      | some (l, r) =>
        if l.isEmpty || r.isEmpty then ([], [], device)
        else
          let (vendor, cls) := ParseKind l
          if vendor.isEmpty then ([], [], device)
          else (vendor, cls, r)

/-- Result of `ParseFullyQualifiedName`: `ok vendor cls name` models the Go
return `(vendor, class, name, nil)`; `err verbatim` models
`("", "", device, non-nil error)` with the verbatim input in the device-name
position; `oob` models a panic propagated from the name validators. -/
inductive ParseRes where
  | ok (vendor cls name : GoStr)
  | err (verbatim : GoStr)
  | oob
  deriving DecidableEq

/-- `ParseFullyQualifiedName` from `api/producer/identifiers.go`. -/
def ParseFullyQualifiedName (device : GoStr) : ParseRes :=
  let p := parseDevice device
  let vendor := p.1
  let cls := p.2.1
  let name := p.2.2
  if vendor.isEmpty then .err device
  else if cls.isEmpty then .err device
  else if name.isEmpty then .err device
  else
    match ValidateVendorName vendor with
    | .oob => .oob
    | .err => .err device
    | .ok =>
      match ValidateClassName cls with
      | .oob => .oob
      | .err => .err device
      | .ok =>
        match ValidateDeviceName name with
        | .oob => .oob
        | .err => .err device
        | .ok => .ok vendor cls name

/-- `QualifiedName` from `pkg/parser` (`part_019`):
`vendor + "/" + class + "=" + name`, no validation. -/
def QualifiedName (vendor cls name : GoStr) : GoStr :=
  vendor ++ '/' :: cls ++ '=' :: name

/-- `ValidateQualifiedName` from `api/producer/identifiers.go`: the
error/panic status of `ParseFullyQualifiedName`. -/
def ValidateQualifiedName (name : GoStr) : NameRes :=
  match ParseFullyQualifiedName name with
  | .ok _ _ _ => .ok
  | .err _ => .err
  | .oob => .oob

/-- `IsQualifiedName` from `pkg/parser` (`part_019`): `true` iff
`producer.ValidateQualifiedName` returns a nil error; a panic in the
validator propagates. -/
def IsQualifiedName (device : GoStr) : NameRes :=
  ValidateQualifiedName device

/-- The naming rule of the data model (spec §3) for vendor and class names,
written from the specification's words: non-empty, starts with a letter,
ends with a letter or digit, interior characters among letters, digits,
`'.'`, `'_'`, `'-'`. -/
def specValidVendorClass (s : GoStr) : Bool :=
  match s with
  | [] => false
  | c0 :: rest =>
    isLetter c0 && rest.dropLast.all vcInteriorOk
      && isAlphaNumeric (lastChar (c0 :: rest))

/-- The naming rule of the data model (spec §3) for device names, written
from the specification's words: non-empty, starts and ends with a letter or
digit, interior characters among letters, digits, `'.'`, `'_'`, `':'`,
`'-'`. -/
def specValidDeviceName (s : GoStr) : Bool :=
  match s with
  | [] => false
  | c0 :: rest =>
    isAlphaNumeric c0 && rest.dropLast.all devInteriorOk
      && isAlphaNumeric (lastChar (c0 :: rest))

end CDI

namespace CDI

theorem splitOnFirst_eq_none {sep : Char} {s : GoStr} (h : sep ∉ s) :
    splitOnFirst sep s = none := by
  induction s with
  | nil => rfl
  | cons c rest ih =>
    simp only [List.mem_cons, not_or] at h
    simp only [splitOnFirst, if_neg (Ne.symm h.1), ih h.2]

theorem splitOnFirst_append {sep : Char} {xs ys : GoStr} (h : sep ∉ xs) :
    splitOnFirst sep (xs ++ sep :: ys) = some (xs, ys) := by
  induction xs with
  | nil => simp [splitOnFirst]
  | cons c rest ih =>
    simp only [List.mem_cons, not_or] at h
    have hr := ih h.2
    simp only [List.cons_append, splitOnFirst, if_neg (Ne.symm h.1), List.append_eq]
    rw [hr]

theorem lastChar_cons_of_ne_nil {c0 : Char} {rest : GoStr} (h : rest ≠ []) :
    lastChar (c0 :: rest) = lastChar rest := by
  cases rest with
  | nil => exact absurd rfl h
  | cons c t => rfl

theorem lastChar_append_singleton (l : GoStr) (a : Char) : lastChar (l ++ [a]) = a := by
  induction l with
  | nil => rfl
  | cons c t ih =>
    have hne : t ++ [a] ≠ [] := by simp
    calc lastChar ((c :: t) ++ [a]) = lastChar (c :: (t ++ [a])) := by rw [List.cons_append]
      _ = lastChar (t ++ [a]) := lastChar_cons_of_ne_nil hne
      _ = a := ih

theorem dropLast_append_lastChar {l : GoStr} (h : l ≠ []) :
    l.dropLast ++ [lastChar l] = l := by
  induction l with
  | nil => exact absurd rfl h
  | cons c t ih =>
    cases t with
    | nil => rfl
    | cons c' t' =>
      simp only [List.dropLast_cons₂, List.cons_append,
        lastChar_cons_of_ne_nil (List.cons_ne_nil c' t'), ih (List.cons_ne_nil c' t')]

theorem vcInteriorOk_of_valid {v : GoStr} (h : specValidVendorClass v = true) :
    ∀ c ∈ v, vcInteriorOk c = true := by
  cases v with
  | nil => simp [specValidVendorClass] at h
  | cons c0 rest =>
    simp only [specValidVendorClass, Bool.and_eq_true, List.all_eq_true] at h
    obtain ⟨⟨hc0, hint⟩, hlast⟩ := h
    intro c hc
    rcases List.mem_cons.mp hc with hh | ht
    · subst hh
      simp [vcInteriorOk, isAlphaNumeric, hc0]
    · rcases List.eq_nil_or_concat rest with hnil | ⟨l2, a, hrest⟩
      · subst hnil; cases ht
      · subst hrest
        rw [List.concat_eq_append] at ht hlast hint
        have hne : l2 ++ [a] ≠ [] := by simp
        rw [lastChar_cons_of_ne_nil hne, lastChar_append_singleton] at hlast
        have hdl : (l2 ++ [a]).dropLast = l2 := by
          simp
        rcases (by simpa using ht : c ∈ l2 ∨ c = a) with hl | hca
        · exact hint c (by rw [hdl]; exact hl)
        · subst hca
          simp [vcInteriorOk, hlast]

end CDI

namespace CDI

theorem devInteriorOk_of_valid {d : GoStr} (h : specValidDeviceName d = true) :
    ∀ c ∈ d, devInteriorOk c = true := by
  cases d with
  | nil => simp [specValidDeviceName] at h
  | cons c0 rest =>
    simp only [specValidDeviceName, Bool.and_eq_true, List.all_eq_true] at h
    obtain ⟨⟨hc0, hint⟩, hlast⟩ := h
    intro c hc
    rcases List.mem_cons.mp hc with hh | ht
    · subst hh
      simp [devInteriorOk, hc0]
    · rcases List.eq_nil_or_concat rest with hnil | ⟨l2, a, hrest⟩
      · subst hnil; cases ht
      · subst hrest
        rw [List.concat_eq_append] at ht hlast hint
        have hne : l2 ++ [a] ≠ [] := by simp
        rw [lastChar_cons_of_ne_nil hne, lastChar_append_singleton] at hlast
        have hdl : (l2 ++ [a]).dropLast = l2 := by simp
        rcases (by simpa using ht : c ∈ l2 ∨ c = a) with hl | hca
        · exact hint c (by rw [hdl]; exact hl)
        · subst hca
          simp [devInteriorOk, hlast]

theorem not_eq_mem_of_valid {v : GoStr} (h : specValidVendorClass v = true) :
    '=' ∉ v ∧ '/' ∉ v := by
  have hmem := vcInteriorOk_of_valid h
  constructor
  · intro hm
    have := hmem _ hm
    simp [vcInteriorOk, isAlphaNumeric, isLetter, isDigit] at this
  · intro hm
    have := hmem _ hm
    simp [vcInteriorOk, isAlphaNumeric, isLetter, isDigit] at this

theorem validateVendorOrClassName_ok_of_valid {v : GoStr}
    (h : specValidVendorClass v = true) (h2 : 2 ≤ v.length) :
    validateVendorOrClassName v = .ok := by
  cases v with
  | nil => simp [specValidVendorClass] at h
  | cons c0 rest =>
    simp only [specValidVendorClass, Bool.and_eq_true] at h
    obtain ⟨⟨hc0, hint⟩, hlast⟩ := h
    have hrest : rest ≠ [] := by
      intro hr
      subst hr
      simp at h2
    simp [validateVendorOrClassName, hc0, hint, hlast, List.isEmpty_iff, hrest]

theorem validateDeviceName_ok_of_valid {d : GoStr}
    (h : specValidDeviceName d = true) :
    ValidateDeviceName d = .ok := by
  cases d with
  | nil => simp [specValidDeviceName] at h
  | cons c0 rest =>
    simp only [specValidDeviceName, Bool.and_eq_true] at h
    obtain ⟨⟨hc0, hint⟩, hlast⟩ := h
    rcases List.eq_nil_or_concat rest with hnil | ⟨l2, a, hrest⟩
    · subst hnil
      simp [ValidateDeviceName, hc0]
    · subst hrest
      rw [List.concat_eq_append] at hint hlast
      have hdl : (l2 ++ [a]).dropLast = l2 := by simp
      rw [hdl] at hint
      simp [ValidateDeviceName, hc0, hlast, List.isEmpty_iff, List.all_eq_true] at hint ⊢
      intro x hx
      exact hint x hx

theorem valid_ne_nil {v : GoStr} (h : specValidVendorClass v = true) : v ≠ [] := by
  cases v with
  | nil => simp [specValidVendorClass] at h
  | cons c0 rest => exact List.cons_ne_nil c0 rest

theorem valid_dev_ne_nil {d : GoStr} (h : specValidDeviceName d = true) : d ≠ [] := by
  cases d with
  | nil => simp [specValidDeviceName] at h
  | cons c0 rest => exact List.cons_ne_nil c0 rest

end CDI

namespace CDI

theorem parseDevice_of_qualified {v cls d : GoStr}
    (hv : specValidVendorClass v = true) (hc : specValidVendorClass cls = true)
    (hd : d ≠ []) :
    parseDevice (QualifiedName v cls d) = (v, cls, d) := by
  obtain ⟨hEqV, hSlashV⟩ := not_eq_mem_of_valid hv
  obtain ⟨hEqC, _⟩ := not_eq_mem_of_valid hc
  cases v with
  | nil => simp [specValidVendorClass] at hv
  | cons v0 vt =>
    have hv0 : isLetter v0 = true := by
      simp only [specValidVendorClass, Bool.and_eq_true] at hv
      exact hv.1.1
    have hv0slash : v0 ≠ '/' := by
      intro h
      subst h
      simp [isLetter] at hv0
    have hclsne : cls ≠ [] := valid_ne_nil hc
    have hsplit : splitOnFirst '=' (QualifiedName (v0 :: vt) cls d)
        = some ((v0 :: vt) ++ '/' :: cls, d) := by
      have hshape : QualifiedName (v0 :: vt) cls d
          = ((v0 :: vt) ++ '/' :: cls) ++ '=' :: d := by
        simp [QualifiedName]
      rw [hshape]
      refine splitOnFirst_append ?_
      intro hm
      rcases List.mem_append.mp hm with h1 | h2
      · exact hEqV h1
      · rcases List.mem_cons.mp h2 with h3 | h4
        · exact absurd h3 (by decide)
        · exact hEqC h4
    have hkind : ParseKind (v0 :: (vt ++ '/' :: cls)) = (v0 :: vt, cls) := by
      unfold ParseKind
      rw [← List.cons_append, splitOnFirst_append hSlashV]
      simp [List.isEmpty_iff, hclsne]
    have hq : QualifiedName (v0 :: vt) cls d = v0 :: (vt ++ '/' :: cls ++ '=' :: d) := by
      simp [QualifiedName]
    rw [hq]
    rw [hq] at hsplit
    simp only [parseDevice, if_neg hv0slash]
    rw [hsplit]
    simp [List.isEmpty_iff, hd, hkind, hclsne]

/-- C4 counterexample.  The triple `("a", "b", "c")` is valid under the
naming rules of the data model (single letters start with a letter and end
with a letter), yet parsing the formatted name `"a/b=c"` does not return
`(a, b, c)` with no error: `ValidateVendorName` panics on the
single-character vendor (the `name[1:len(name)-1]` slice is out of range),
so the roundtrip fails. -/
theorem qualifiedName_roundtrip_fails_on_single_char :
    specValidVendorClass ("a".toList) = true
      ∧ specValidVendorClass ("b".toList) = true
      ∧ specValidDeviceName ("c".toList) = true
      ∧ ParseFullyQualifiedName (QualifiedName ("a".toList) ("b".toList) ("c".toList))
          = .oob
      ∧ ParseFullyQualifiedName (QualifiedName ("a".toList) ("b".toList) ("c".toList))
          ≠ .ok ("a".toList) ("b".toList) ("c".toList) := by
  decide

/-- C4 (amended).  Qualified-name roundtrip for vendors and classes of at
least two characters: for every vendor `v`, class `cls` and device name `d`
valid under the naming rules of the data model, with `v` and `cls` of length
at least 2 (the single-character case panics, see the counterexample),
parsing `QualifiedName v cls d = "v/cls=d"` succeeds and returns exactly
`(v, cls, d)` with no error. -/
theorem qualifiedName_roundtrip (v cls d : GoStr)
    (hv : specValidVendorClass v = true) (hc : specValidVendorClass cls = true)
    (h2v : 2 ≤ v.length) (h2c : 2 ≤ cls.length)
    (hd : specValidDeviceName d = true) :
    ParseFullyQualifiedName (QualifiedName v cls d) = .ok v cls d := by
  have hpd := parseDevice_of_qualified hv hc (valid_dev_ne_nil hd)
  have hvne : v ≠ [] := valid_ne_nil hv
  have hcne : cls ≠ [] := valid_ne_nil hc
  have hdne : d ≠ [] := valid_dev_ne_nil hd
  have h1 : ValidateVendorName v = .ok := validateVendorOrClassName_ok_of_valid hv h2v
  have h2 : ValidateClassName cls = .ok := validateVendorOrClassName_ok_of_valid hc h2c
  have h3 : ValidateDeviceName d = .ok := validateDeviceName_ok_of_valid hd
  simp [ParseFullyQualifiedName, hpd, List.isEmpty_iff, hvne, hcne, hdne, h1, h2, h3]

/-- C4 witness: the amended roundtrip evaluated at the concrete valid triple
`("vendor.com", "class", "dev")`. -/
theorem qualifiedName_roundtrip_witness :
    specValidVendorClass ("vendor.com".toList) = true
      ∧ specValidVendorClass ("class".toList) = true
      ∧ 2 ≤ ("vendor.com".toList).length
      ∧ 2 ≤ ("class".toList).length
      ∧ specValidDeviceName ("dev".toList) = true
      ∧ ParseFullyQualifiedName
          (QualifiedName ("vendor.com".toList) ("class".toList) ("dev".toList))
          = .ok ("vendor.com".toList) ("class".toList) ("dev".toList) :=
  ⟨by decide, by decide, by decide, by decide, by decide,
    qualifiedName_roundtrip ("vendor.com".toList) ("class".toList) ("dev".toList)
      (by decide) (by decide) (by decide) (by decide) (by decide)⟩

/-- C5.  Parse failure is echoed verbatim: for every input string that
starts with `'/'` or contains no `'='`, `ParseFullyQualifiedName` returns
empty vendor and class, the verbatim input in the device-name position, and
a non-nil error (the `ParseRes.err` constructor carries exactly that
return shape). -/
theorem parseFullyQualifiedName_err_verbatim (s : GoStr)
    (h : s.head? = some '/' ∨ '=' ∉ s) :
    ParseFullyQualifiedName s = .err s := by
  cases s with
  | nil => rfl
  | cons c rest =>
    by_cases hc : c = '/'
    · subst hc
      simp [ParseFullyQualifiedName, parseDevice]
    · have hne : '=' ∉ c :: rest := by
        rcases h with h | h
        · simp only [List.head?_cons, Option.some.injEq] at h
          exact absurd h hc
        · exact h
      simp [ParseFullyQualifiedName, parseDevice, hc, splitOnFirst_eq_none hne]

/-- C5 witness: the parse-ambiguity theorem evaluated at the concrete inputs
`"/dev/null"` (starts with `'/'`). -/
theorem parseFullyQualifiedName_err_verbatim_witness :
    (("/dev/null".toList).head? = some '/' ∨ '=' ∉ ("/dev/null".toList))
      ∧ ParseFullyQualifiedName ("/dev/null".toList) = .err ("/dev/null".toList) :=
  ⟨by decide, parseFullyQualifiedName_err_verbatim ("/dev/null".toList) (by decide)⟩

/-- C10.  Vendor/class name validation is not total on one-character names:
`ValidateVendorName` and `ValidateClassName` evaluate the out-of-range
string slice `name[1:len(name)-1]` (bounds `[1:0]`) on the single-letter
input `"a"`, a run-time panic, where the claim (and the data model's naming
rule, under which `"a"` is valid) expects a nil error; `ValidateDeviceName`
guards the length-1 case explicitly and returns nil. -/
theorem validateVendorOrClassName_panics_on_single_letter :
    ValidateVendorName ("a".toList) = .oob
      ∧ ValidateClassName ("a".toList) = .oob
      ∧ specValidVendorClass ("a".toList) = true
      ∧ ValidateDeviceName ("a".toList) = .ok := by
  decide

end CDI

namespace CDI

/-- `IntelRdt` from `specs-go` (spec §3): optional Intel RDT block. -/
structure IntelRdt where
  closID : GoStr
  l3CacheSchema : GoStr
  memBwSchema : GoStr
  enableCMT : Bool
  enableMBM : Bool
  deriving DecidableEq

/-- `DeviceNode` from `specs-go` (spec §3). -/
structure DeviceNode where
  path : GoStr
  hostPath : GoStr
  type : GoStr
  major : Int
  minor : Int
  fileMode : Option Nat
  permissions : GoStr
  uid : Option Nat
  gid : Option Nat
  deriving DecidableEq

/-- `Mount` from `specs-go` (spec §3). -/
structure Mount where
  hostPath : GoStr
  containerPath : GoStr
  options : List GoStr
  type : GoStr
  deriving DecidableEq

/-- `Hook` from `specs-go` (spec §3). -/
structure Hook where
  hookName : GoStr
  path : GoStr
  args : List GoStr
  env : List GoStr
  timeout : Option Int
  deriving DecidableEq

/-- `ContainerEdits` from `specs-go` (spec §3); `additionalGIDs` holds
32-bit unsigned integers, modelled as `Nat` (no arithmetic is performed on
them by the embedded code). -/
structure ContainerEdits where
  env : List GoStr
  deviceNodes : List DeviceNode
  hooks : List Hook
  mounts : List Mount
  intelRdt : Option IntelRdt
  additionalGIDs : List Nat
  deriving DecidableEq

/-- `Device` from `specs-go` (spec §3); annotations are a string-keyed map,
modelled as an association list (the embedded code only tests emptiness and
iterates). -/
structure Device where
  name : GoStr
  annotations : List (GoStr × GoStr)
  containerEdits : ContainerEdits
  deriving DecidableEq

/-- `Spec` from `specs-go` (spec §3). -/
structure Spec where
  version : GoStr
  kind : GoStr
  annotations : List (GoStr × GoStr)
  devices : List Device
  containerEdits : ContainerEdits
  deriving DecidableEq

/-- The released CDI spec versions, `specs-go/parser.go`: a totally ordered
chain `v0.1.0 < ... < v0.8.0`. -/
inductive Version where
  | v010 | v020 | v030 | v040 | v050 | v060 | v070 | v080
  deriving DecidableEq

/-- Rank of a version in the chain; semver comparison on the released
versions coincides with comparison of ranks. -/
def Version.rank : Version → Nat
  | .v010 => 1
  | .v020 => 2
  | .v030 => 3
  | .v040 => 4
  | .v050 => 5
  | .v060 => 6
  | .v070 => 7
  | .v080 => 8

/-- `Version.IsGreaterThan` from `specs-go/parser.go`
(`semver.Compare(v, o) > 0`). -/
def Version.IsGreaterThan (v o : Version) : Bool :=
  decide (o.rank < v.rank)

/-- `Version.IsLatest` from `specs-go/parser.go`: `v == vCurrent` with
`CurrentVersion = "0.8.0"`. -/
def Version.IsLatest (v : Version) : Bool :=
  v = .v080

/-- `ParseQualifier` from `specs-go/parser.go`, byte-identical to
`ParseKind` in `api/producer/identifiers.go`. -/
def ParseQualifier (kind : GoStr) : GoStr × GoStr :=
  ParseKind kind

/-- `requiresV080` from `specs-go/parser.go`: the v0.8.0 bump has no
content-detectable feature. -/
def requiresV080 (_ : Spec) : Bool :=
  false

/-- `requiresV070` from `specs-go/parser.go`: spec- or device-level
`intelRdt` or non-empty `additionalGIDs`. -/
def requiresV070 (s : Spec) : Bool :=
  if s.containerEdits.intelRdt.isSome then true
  else if !s.containerEdits.additionalGIDs.isEmpty then true
  else s.devices.any fun d =>
    d.containerEdits.intelRdt.isSome || !d.containerEdits.additionalGIDs.isEmpty

/-- `requiresV060` from `specs-go/parser.go`: spec- or device-level
annotations, or a dot in the class of the parsed kind. -/
def requiresV060 (s : Spec) : Bool :=
  if !s.annotations.isEmpty then true
  else if s.devices.any fun d => !d.annotations.isEmpty then true
  else
    let p := ParseQualifier s.kind
    !p.1.isEmpty && p.2.contains '.'

/-- `requiresV050` from `specs-go/parser.go`: a device name starting with a
non-letter, or a device node with a non-empty `hostPath` in device- or
spec-level edits (the Go source collects device edits first, then the
spec-level edits). -/
def requiresV050 (s : Spec) : Bool :=
  if s.devices.any fun d => !d.name.isEmpty && !isLetter (d.name.headD ' ') then true
  else
    ((s.devices.map fun d => d.containerEdits) ++ [s.containerEdits]).any fun e =>
      e.deviceNodes.any fun dn => !dn.hostPath.isEmpty

/-- `requiresV040` from `specs-go/parser.go`: a mount with a non-empty
`type` in device- or spec-level edits. -/
def requiresV040 (s : Spec) : Bool :=
  ((s.devices.map fun d => d.containerEdits) ++ [s.containerEdits]).any fun e =>
    e.mounts.any fun m => !m.type.isEmpty

/-- `validSpecVersions` from `specs-go/parser.go`, restricted to the
entries with a non-nil `requiredFunc` (v0.1.0-v0.3.0 map to nil and the
loop skips them). Go iterates the map in unspecified order; the loop below
fixes the ascending order, which yields the same result: each update takes
a maximum, and the `IsLatest` early break can only fire after v0.8.0 was
detected, which `requiresV080` never reports. -/
def validSpecVersionsChecks : List (Version × (Spec → Bool)) :=
  [(.v040, requiresV040), (.v050, requiresV050), (.v060, requiresV060),
   (.v070, requiresV070), (.v080, requiresV080)]

/-- The loop body of `requiredVersionMap.requiredVersion` from
`specs-go/parser.go`. -/
def requiredVersionLoop (s : Spec) : List (Version × (Spec → Bool)) → Version → Version
  | [], minVersion => minVersion
  | (v, isRequired) :: rest, minVersion =>
    let m := if isRequired s && v.IsGreaterThan minVersion then v else minVersion
    if m.IsLatest then m else requiredVersionLoop s rest m

/-- `requiredVersionMap.requiredVersion` from `specs-go/parser.go`: start
from `vEarliest = v0.3.0`. -/
def requiredVersion (s : Spec) : Version :=
  requiredVersionLoop s validSpecVersionsChecks .v030

/-- `MinimumRequiredVersion` from `specs-go/parser.go`.  The Go function
returns the semver string of this version together with an always-nil
error. -/
def MinimumRequiredVersion (s : Spec) : Version :=
  requiredVersion s

/-- All mounts of a spec, spec-level and device-level (claim side, spec
§4.3). -/
def allMounts (s : Spec) : List Mount :=
  s.containerEdits.mounts ++ (s.devices.map fun d => d.containerEdits.mounts).flatten

/-- All device nodes of a spec, spec-level and device-level (claim side). -/
def allDeviceNodes (s : Spec) : List DeviceNode :=
  s.containerEdits.deviceNodes ++ (s.devices.map fun d => d.containerEdits.deviceNodes).flatten

/-- Claim side, spec §4.3: some mount carries a non-empty `type`. -/
def specHasTypedMount (s : Spec) : Bool :=
  (allMounts s).any fun m => !m.type.isEmpty

/-- Claim side, spec §4.3: some device name begins with a non-letter, or
some device node carries a non-empty `hostPath`. -/
def specHasV050Feature (s : Spec) : Bool :=
  (s.devices.any fun d => !d.name.isEmpty && !isLetter (d.name.headD ' '))
    || (allDeviceNodes s).any fun dn => !dn.hostPath.isEmpty

/-- Claim side, spec §4.3: an annotation at spec or device level, or a dot
in the (successfully parsed) class of the kind. -/
def specHasV060Feature (s : Spec) : Bool :=
  !s.annotations.isEmpty
    || (s.devices.any fun d => !d.annotations.isEmpty)
    || (!(ParseQualifier s.kind).1.isEmpty && (ParseQualifier s.kind).2.contains '.')

/-- Claim side, spec §4.3: an `intelRdt` block or non-empty
`additionalGIDs` at spec or device level. -/
def specHasV070Feature (s : Spec) : Bool :=
  s.containerEdits.intelRdt.isSome
    || !s.containerEdits.additionalGIDs.isEmpty
    || s.devices.any fun d =>
        d.containerEdits.intelRdt.isSome || !d.containerEdits.additionalGIDs.isEmpty

/-- The maximum of two versions in the chain. -/
def vmax (a b : Version) : Version :=
  if a.rank ≤ b.rank then b else a

/-- Claim side, spec §4.3: the minimum required version as the maximum of
the per-feature thresholds, defaulting to the earliest supported version
v0.3.0. -/
def specMinVersion (s : Spec) : Version :=
  vmax (vmax (vmax (vmax .v030
    (if specHasTypedMount s then .v040 else .v030))
    (if specHasV050Feature s then .v050 else .v030))
    (if specHasV060Feature s then .v060 else .v030))
    (if specHasV070Feature s then .v070 else .v030)

end CDI

namespace CDI

theorem requiresV040_eq (s : Spec) : requiresV040 s = specHasTypedMount s := by
  rw [Bool.eq_iff_iff]
  simp only [requiresV040, specHasTypedMount, allMounts, List.any_eq_true,
    List.mem_append, List.mem_map, List.mem_flatten, List.mem_singleton]
  constructor
  · rintro ⟨e, he, m, hm, hty⟩
    rcases he with ⟨d, hd, rfl⟩ | rfl
    · exact ⟨m, Or.inr ⟨_, ⟨d, hd, rfl⟩, hm⟩, hty⟩
    · exact ⟨m, Or.inl hm, hty⟩
  · rintro ⟨m, hm, hty⟩
    rcases hm with hm | ⟨_, ⟨d, hd, rfl⟩, hm⟩
    · exact ⟨s.containerEdits, Or.inr rfl, m, hm, hty⟩
    · exact ⟨d.containerEdits, Or.inl ⟨d, hd, rfl⟩, m, hm, hty⟩

theorem requiresV050_eq (s : Spec) : requiresV050 s = specHasV050Feature s := by
  rw [Bool.eq_iff_iff]
  simp only [requiresV050, specHasV050Feature, allDeviceNodes]
  by_cases hname : (s.devices.any fun d => !d.name.isEmpty && !isLetter (d.name.headD ' ')) = true
  · simp only [hname, if_true, Bool.true_or, iff_true]
  · rw [if_neg hname]
    have hname2 : (s.devices.any fun d => !d.name.isEmpty && !isLetter (d.name.headD ' ')) = false := by
      simpa using hname
    rw [hname2, Bool.false_or]
    simp only [List.any_eq_true, List.mem_append, List.mem_map, List.mem_flatten,
      List.mem_singleton]
    constructor
    · rintro ⟨e, he, dn, hdn, hh⟩
      rcases he with ⟨d, hd, rfl⟩ | rfl
      · exact ⟨dn, Or.inr ⟨_, ⟨d, hd, rfl⟩, hdn⟩, hh⟩
      · exact ⟨dn, Or.inl hdn, hh⟩
    · rintro ⟨dn, hdn, hh⟩
      rcases hdn with hdn | ⟨_, ⟨d, hd, rfl⟩, hdn⟩
      · exact ⟨s.containerEdits, Or.inr rfl, dn, hdn, hh⟩
      · exact ⟨d.containerEdits, Or.inl ⟨d, hd, rfl⟩, dn, hdn, hh⟩

theorem requiresV060_eq (s : Spec) : requiresV060 s = specHasV060Feature s := by
  rw [Bool.eq_iff_iff]
  simp only [requiresV060, specHasV060Feature]
  by_cases h1 : s.annotations.isEmpty
  · by_cases h2 : (s.devices.any fun d => !d.annotations.isEmpty) = true
    · simp [h1, h2]
    · simp [h1, h2]
  · simp [h1]

theorem requiresV070_eq (s : Spec) : requiresV070 s = specHasV070Feature s := by
  rw [Bool.eq_iff_iff]
  simp only [requiresV070, specHasV070Feature]
  by_cases h1 : s.containerEdits.intelRdt.isSome
  · simp [h1]
  · by_cases h2 : s.containerEdits.additionalGIDs.isEmpty
    · simp [h1, h2]
    · simp [h1, h2]

theorem requiredVersion_eq_specMin (s : Spec) : requiredVersion s = specMinVersion s := by
  have h40 := requiresV040_eq s
  have h50 := requiresV050_eq s
  have h60 := requiresV060_eq s
  have h70 := requiresV070_eq s
  unfold requiredVersion validSpecVersionsChecks
  simp only [requiredVersionLoop, h40, h50, h60, h70, requiresV080]
  rcases hb40 : specHasTypedMount s <;> rcases hb50 : specHasV050Feature s <;>
    rcases hb60 : specHasV060Feature s <;> rcases hb70 : specHasV070Feature s <;>
      simp [specMinVersion, vmax, Version.IsGreaterThan, Version.IsLatest, Version.rank,
        hb40, hb50, hb60, hb70]

end CDI

namespace CDI

/-- Version order (rank comparison; semver order on the released chain). -/
def vle (a b : Version) : Prop :=
  a.rank ≤ b.rank

instance (a b : Version) : Decidable (vle a b) :=
  inferInstanceAs (Decidable (a.rank ≤ b.rank))

/-- The maximum-of-thresholds chain as a function of the four feature
bits. -/
def vchain (b40 b50 b60 b70 : Bool) : Version :=
  vmax (vmax (vmax (vmax .v030
    (if b40 then .v040 else .v030))
    (if b50 then .v050 else .v030))
    (if b60 then .v060 else .v030))
    (if b70 then .v070 else .v030)

theorem specMinVersion_eq_vchain (s : Spec) :
    specMinVersion s = vchain (specHasTypedMount s) (specHasV050Feature s)
      (specHasV060Feature s) (specHasV070Feature s) := rfl

theorem vchain_mono : ∀ a b c d a' b' c' d' : Bool,
    (a = true → a' = true) → (b = true → b' = true) →
    (c = true → c' = true) → (d = true → d' = true) →
    vle (vchain a b c d) (vchain a' b' c' d') := by decide

theorem vchain_ge_v040 : ∀ a b c d : Bool, a = true → vle .v040 (vchain a b c d) := by decide

theorem vchain_ge_v050 : ∀ a b c d : Bool, b = true → vle .v050 (vchain a b c d) := by decide

theorem vchain_ge_v060 : ∀ a b c d : Bool, c = true → vle .v060 (vchain a b c d) := by decide

theorem vchain_ge_v070 : ∀ a b c d : Bool, d = true → vle .v070 (vchain a b c d) := by decide

/-- Add one annotation at spec level. -/
def addSpecAnns (k v : GoStr) (s : Spec) : Spec :=
  {s with annotations := (k, v) :: s.annotations}

/-- Add one annotation to a device. -/
def addDeviceAnns (k v : GoStr) (d : Device) : Device :=
  {d with annotations := (k, v) :: d.annotations}

/-- Add one mount to the spec-level edits. -/
def addSpecMount (m : Mount) (s : Spec) : Spec :=
  {s with containerEdits := {s.containerEdits with mounts := m :: s.containerEdits.mounts}}

/-- Add one device node to the spec-level edits. -/
def addSpecDeviceNode (dn : DeviceNode) (s : Spec) : Spec :=
  {s with containerEdits :=
    {s.containerEdits with deviceNodes := dn :: s.containerEdits.deviceNodes}}

/-- Set an `intelRdt` block in the spec-level edits. -/
def addSpecIntelRdt (r : IntelRdt) (s : Spec) : Spec :=
  {s with containerEdits := {s.containerEdits with intelRdt := some r}}

/-- Add one additional GID to the spec-level edits. -/
def addSpecGID (g : Nat) (s : Spec) : Spec :=
  {s with containerEdits :=
    {s.containerEdits with additionalGIDs := g :: s.containerEdits.additionalGIDs}}

end CDI

namespace CDI

/-- C3.  Minimum-required-version detection: for every spec,
`MinimumRequiredVersion` returns the maximum of the feature thresholds —
v0.4.0 for a typed mount (spec- or device-level), v0.5.0 for a device name
beginning with a non-letter or a device node with a non-empty `hostPath`,
v0.6.0 for an annotation at spec or device level or a dot in the parsed
class, v0.7.0 for an `intelRdt` block or non-empty `additionalGIDs` — and
otherwise the earliest supported version v0.3.0. -/
theorem minimumRequiredVersion_is_max_of_features (s : Spec) :
    MinimumRequiredVersion s = specMinVersion s :=
  requiredVersion_eq_specMin s

/-- C9.  Minimum-version monotonicity: adding one annotation (at spec or
device level) never decreases the detected minimum version, and adding a
feature listed as requiring version v raises the detected minimum to at
least v (v0.4.0 for a typed mount, v0.5.0 for a device node with host path,
v0.6.0 for an annotation, v0.7.0 for intelRdt or an additional GID). -/
theorem minVersion_monotone (s : Spec) (k v : GoStr) (ds1 ds2 : List Device) (d : Device)
    (m : Mount) (dn : DeviceNode) (r : IntelRdt) (g : Nat) :
    vle (MinimumRequiredVersion s) (MinimumRequiredVersion (addSpecAnns k v s))
    ∧ (s.devices = ds1 ++ d :: ds2 →
        vle (MinimumRequiredVersion s)
          (MinimumRequiredVersion {s with devices := ds1 ++ addDeviceAnns k v d :: ds2}))
    ∧ vle .v060 (MinimumRequiredVersion (addSpecAnns k v s))
    ∧ (m.type ≠ [] → vle .v040 (MinimumRequiredVersion (addSpecMount m s)))
    ∧ (dn.hostPath ≠ [] → vle .v050 (MinimumRequiredVersion (addSpecDeviceNode dn s)))
    ∧ vle .v070 (MinimumRequiredVersion (addSpecIntelRdt r s))
    ∧ vle .v070 (MinimumRequiredVersion (addSpecGID g s)) := by
  have hmrv : ∀ t : Spec, MinimumRequiredVersion t
      = vchain (specHasTypedMount t) (specHasV050Feature t)
          (specHasV060Feature t) (specHasV070Feature t) := by
    intro t
    rw [← specMinVersion_eq_vchain]
    exact requiredVersion_eq_specMin t
  refine ⟨?_, ?_, ?_, ?_, ?_, ?_, ?_⟩
  · rw [hmrv s, hmrv (addSpecAnns k v s)]
    have e40 : specHasTypedMount (addSpecAnns k v s) = specHasTypedMount s := rfl
    have e50 : specHasV050Feature (addSpecAnns k v s) = specHasV050Feature s := rfl
    have e70 : specHasV070Feature (addSpecAnns k v s) = specHasV070Feature s := rfl
    have e60 : specHasV060Feature (addSpecAnns k v s) = true := rfl
    rw [e40, e50, e60, e70]
    exact vchain_mono _ _ _ _ _ _ _ _ id id (fun _ => rfl) id
  · intro hdev
    set s' : Spec := {s with devices := ds1 ++ addDeviceAnns k v d :: ds2} with hs'
    rw [hmrv s, hmrv s']
    have e40 : specHasTypedMount s' = specHasTypedMount s := by
      simp only [specHasTypedMount, allMounts, hs', hdev, List.map_append, List.map_cons]
      rfl
    have e50 : specHasV050Feature s' = specHasV050Feature s := by
      simp only [specHasV050Feature, allDeviceNodes, hs', hdev, List.map_append,
        List.map_cons, List.any_append, List.any_cons]
      rfl
    have e70 : specHasV070Feature s' = specHasV070Feature s := by
      simp only [specHasV070Feature, hs', hdev, List.any_append, List.any_cons]
      rfl
    have e60 : specHasV060Feature s' = true := by
      simp only [specHasV060Feature, hs', List.any_append, List.any_cons, addDeviceAnns]
      simp
    rw [e40, e50, e60, e70]
    exact vchain_mono _ _ _ _ _ _ _ _ id id (fun _ => rfl) id
  · rw [hmrv (addSpecAnns k v s)]
    exact vchain_ge_v060 _ _ _ _ rfl
  · intro hm
    rw [hmrv (addSpecMount m s)]
    refine vchain_ge_v040 _ _ _ _ ?_
    simp only [specHasTypedMount, allMounts, addSpecMount, List.any_eq_true]
    exact ⟨m, by simp, by simpa [List.isEmpty_iff] using hm⟩
  · intro hdn
    rw [hmrv (addSpecDeviceNode dn s)]
    refine vchain_ge_v050 _ _ _ _ ?_
    simp only [specHasV050Feature, allDeviceNodes, addSpecDeviceNode, Bool.or_eq_true,
      List.any_eq_true]
    exact Or.inr ⟨dn, by simp, by simpa [List.isEmpty_iff] using hdn⟩
  · rw [hmrv (addSpecIntelRdt r s)]
    exact vchain_ge_v070 _ _ _ _ (by simp [specHasV070Feature, addSpecIntelRdt])
  · rw [hmrv (addSpecGID g s)]
    exact vchain_ge_v070 _ _ _ _ (by simp [specHasV070Feature, addSpecGID])

end CDI

namespace CDI

/-- Validation errors of the default producer validator
(`api/producer/validator-default.go`); each constructor models one
`fmt.Errorf`/`errors.New` site with the data the message carries. -/
inductive CEErr where
  | invalidEnv (entry : GoStr)
  | editsEnv (e : CEErr)
  | emptyDevicePath
  | invalidDeviceType (path ty : GoStr)
  | invalidDevicePermissions (path : GoStr)
  | invalidHookName (name : GoStr)
  | emptyHookPath (name : GoStr)
  | hookEnv (name : GoStr) (e : CEErr)
  | emptyMountHostPath
  | emptyMountContainerPath
  | invalidClosID
  deriving DecidableEq

/-- `strings.IndexByte(v, c)` for an ASCII character `c`, as a character
index: `-1` when absent.  For valid UTF-8 the byte index and the character
index of an ASCII character have the same sign, and the embedded code only
tests the sign (`<= 0`). -/
def goIndexOf (c : Char) : GoStr → Int
  | [] => -1
  | x :: rest =>
    if x = c then 0
    else
      let i := goIndexOf c rest
      if i < 0 then -1 else i + 1

/-- One entry of `validateEnv` from `api/producer/validator-default.go`:
an error when `strings.IndexByte(v, '=') <= 0`. -/
def validateEnvEntry (v : GoStr) : Option CEErr :=
  if goIndexOf '=' v ≤ 0 then some (.invalidEnv v) else none

/-- Return the first error a per-element validator reports (the Go loops
return on the first failing element). -/
def firstErrWith {α : Type} (f : α → Option CEErr) : List α → Option CEErr
  | [] => none
  | x :: xs =>
    match f x with
    | some e => some e
    | none => firstErrWith f xs

/-- `validateEnv` from `api/producer/validator-default.go`. -/
def validateEnv (env : List GoStr) : Option CEErr :=
  firstErrWith validateEnvEntry env

/-- The device-node types accepted by `validateDeviceNode`:
`"", "b", "c", "u", "p"`. -/
def validDeviceTypes : List GoStr :=
  [[], "b".toList, "c".toList, "u".toList, "p".toList]

/-- `validateDeviceNode` from `api/producer/validator-default.go`. -/
def validateDeviceNode (d : DeviceNode) : Option CEErr :=
  if d.path.isEmpty then some .emptyDevicePath
  else if !(validDeviceTypes.contains d.type) then some (.invalidDeviceType d.path d.type)
  else if !(d.permissions.all fun bit => bit = 'r' || bit = 'w' || bit = 'm') then
    some (.invalidDevicePermissions d.path)
  else none

/-- The six OCI hook names accepted by `validateHook` from
`api/producer/validator-default.go`. -/
def validHookNames : List GoStr :=
  ["prestart".toList, "createRuntime".toList, "createContainer".toList,
   "startContainer".toList, "poststart".toList, "poststop".toList]

/-- `validateHook` from `api/producer/validator-default.go`: the hook name
must be one of the six known names, the path non-empty, and the hook's env
entries must validate. -/
def validateHook (h : Hook) : Option CEErr :=
  if !(validHookNames.contains h.hookName) then some (.invalidHookName h.hookName)
  else if h.path.isEmpty then some (.emptyHookPath h.hookName)
  else
    match validateEnv h.env with
    | some e => some (.hookEnv h.hookName e)
    | none => none

/-- `validateMount` from `api/producer/validator-default.go`. -/
def validateMount (m : Mount) : Option CEErr :=
  if m.hostPath.isEmpty then some .emptyMountHostPath
  else if m.containerPath.isEmpty then some .emptyMountContainerPath
  else none

/-- `validateIntelRdt` from `api/producer/validator-default.go`; the length
bound is on bytes in Go, on characters here (the embedded claims do not
involve closIDs near the bound). -/
def validateIntelRdt (i : Option IntelRdt) : Option CEErr :=
  match i with
  | none => none
  | some r =>
    if 4096 ≤ r.closID.length || r.closID = ".".toList || r.closID = "..".toList
        || r.closID.any fun c => c = '/' || c = '\n' then
      some .invalidClosID
    else none

/-- `validateEdits` from `api/producer/validator-default.go` (the Go
function short-circuits on a nil edits pointer; the model's callers always
pass a record).  Order: env, device nodes, hooks, mounts, intelRdt; the
env error is wrapped. -/
def validateEdits (e : ContainerEdits) : Option CEErr :=
  match validateEnv e.env with
  | some er => some (.editsEnv er)
  | none =>
    match firstErrWith validateDeviceNode e.deviceNodes with
    | some er => some er
    | none =>
      match firstErrWith validateHook e.hooks with
      | some er => some er
      | none =>
        match firstErrWith validateMount e.mounts with
        | some er => some er
        | none => validateIntelRdt e.intelRdt

/-- Claim side (spec §4.4): a hook is good when its name is one of the six
hook names, its path is non-empty, and every env entry contains `'='` at a
position greater than 0 (it contains `'='` and does not start with it). -/
def claimGoodHook (h : Hook) : Prop :=
  h.hookName ∈ validHookNames ∧ h.path ≠ []
    ∧ ∀ v ∈ h.env, '=' ∈ v ∧ v.head? ≠ some '='

instance (h : Hook) : Decidable (claimGoodHook h) := by
  unfold claimGoodHook
  infer_instance

theorem goIndexOf_neg_iff {c : Char} {s : GoStr} : goIndexOf c s < 0 ↔ c ∉ s := by
  induction s with
  | nil => simp [goIndexOf]
  | cons x rest ih =>
    simp only [goIndexOf, List.mem_cons]
    by_cases hx : x = c
    · subst hx
      simp
    · rw [if_neg hx]
      by_cases hr : goIndexOf c rest < 0
      · rw [if_pos hr]
        have hnr : c ∉ rest := ih.mp hr
        constructor
        · intro _
          rintro (h1 | h2)
          · exact hx h1.symm
          · exact hnr h2
        · intro _
          omega
      · rw [if_neg hr]
        push_neg at hr
        have hmem : c ∈ rest := by
          by_contra hnm
          exact absurd (ih.mpr hnm) (not_lt.mpr hr)
        constructor
        · intro hlt
          exfalso
          omega
        · intro hor
          exact absurd (Or.inr hmem) hor

theorem validateEnvEntry_none_iff {v : GoStr} :
    validateEnvEntry v = none ↔ '=' ∈ v ∧ v.head? ≠ some '=' := by
  unfold validateEnvEntry
  rcases v with _ | ⟨x, rest⟩
  · simp [goIndexOf]
  · simp only [goIndexOf, List.head?_cons]
    by_cases hx : x = '='
    · subst hx
      simp
    · rw [if_neg hx]
      have hxne : (some x ≠ some '=') := by simpa using hx
      by_cases hr : goIndexOf '=' rest < 0
      · rw [if_pos hr]
        have hnm : '=' ∉ rest := goIndexOf_neg_iff.mp hr
        rw [if_pos (by omega : (-1 : Int) ≤ 0)]
        simp only [List.mem_cons]
        constructor
        · intro hc
          cases hc
        · rintro ⟨h1 | h2, _⟩
          · exact absurd h1.symm hx
          · exact absurd h2 hnm
      · rw [if_neg hr]
        push_neg at hr
        have hmem : '=' ∈ rest := by
          by_contra hnm
          exact absurd (goIndexOf_neg_iff.mpr hnm) (not_lt.mpr hr)
        rw [if_neg (by omega : ¬ (goIndexOf '=' rest + 1 ≤ 0))]
        simp only [List.mem_cons]
        constructor
        · intro _
          exact ⟨Or.inr hmem, hxne⟩
        · intro _
          trivial

theorem firstErrWith_none_iff {α : Type} {f : α → Option CEErr} {l : List α} :
    firstErrWith f l = none ↔ ∀ x ∈ l, f x = none := by
  induction l with
  | nil => simp [firstErrWith]
  | cons x xs ih =>
    simp only [firstErrWith]
    rcases hfx : f x with _ | e
    · rw [ih]
      constructor
      · intro h y hy
        rcases List.mem_cons.mp hy with h1 | h2
        · subst h1
          exact hfx
        · exact h y h2
      · intro h y hy
        exact h y (List.mem_cons_of_mem x hy)
    · constructor
      · intro hc
        cases hc
      · intro h
        have hx := h x (List.mem_cons_self x xs)
        rw [hx] at hfx
        cases hfx

theorem validateHook_none_iff {h : Hook} :
    validateHook h = none ↔ claimGoodHook h := by
  unfold validateHook claimGoodHook
  by_cases hn : validHookNames.contains h.hookName
  · have hmem : h.hookName ∈ validHookNames := by simpa using hn
    rw [if_neg (by simpa using hn)]
    by_cases hp : h.path.isEmpty
    · rw [if_pos hp]
      simp only [List.isEmpty_iff] at hp
      simp [hp]
    · rw [if_neg hp]
      simp only [List.isEmpty_iff] at hp
      rcases he : validateEnv h.env with _ | e
      · rw [validateEnv, firstErrWith_none_iff] at he
        simp only [hmem, hp, ne_eq, not_false_iff, true_and]
        constructor
        · intro _ v hv
          exact validateEnvEntry_none_iff.mp (he v hv)
        · intro _
          trivial
      · constructor
        · intro hc
          cases hc
        · rintro ⟨_, _, henv⟩
          have hnone : validateEnv h.env = none := by
            rw [validateEnv, firstErrWith_none_iff]
            exact fun v hv => validateEnvEntry_none_iff.mpr (henv v hv)
          rw [hnone] at he
          cases he
  · rw [if_pos (by simpa using hn)]
    have hnm : h.hookName ∉ validHookNames := by simpa using hn
    constructor
    · intro hc
      cases hc
    · rintro ⟨hmem, _⟩
      exact absurd hmem hnm

theorem firstErrWith_ne_none {α : Type} {f : α → Option CEErr} {l : List α}
    (h : ∃ x ∈ l, f x ≠ none) : firstErrWith f l ≠ none := by
  rw [Ne, firstErrWith_none_iff]
  push_neg
  obtain ⟨x, hx, hfx⟩ := h
  exact ⟨x, hx, hfx⟩

/-- C8.  Hook validation: edits validation reports an error whenever some
hook's name is not one of the six known hook names, or its path is empty,
or some of its env entries lacks `'='` at a position greater than 0; and a
hook satisfying all three conditions passes `validateHook`. -/
theorem hook_validation (e : ContainerEdits) (h : Hook) :
    ((∃ hk ∈ e.hooks, ¬ claimGoodHook hk) → validateEdits e ≠ none)
    ∧ (claimGoodHook h → validateHook h = none) := by
  constructor
  · intro hex
    have hhooks : firstErrWith validateHook e.hooks ≠ none := by
      refine firstErrWith_ne_none ?_
      obtain ⟨hk, hmem, hbad⟩ := hex
      exact ⟨hk, hmem, fun hn => hbad (validateHook_none_iff.mp hn)⟩
    unfold validateEdits
    rcases validateEnv e.env with _ | er
    · rcases firstErrWith validateDeviceNode e.deviceNodes with _ | er2
      · rcases hfh : firstErrWith validateHook e.hooks with _ | er3
        · exact absurd hfh hhooks
        · simp
      · simp
    · simp
  · exact fun hg => validateHook_none_iff.mpr hg

end CDI

namespace CDI

/-- The reserved annotation key prefix `cdi.k8s.io/`
(`AnnotationPrefix` in the sources). -/
def annotationPfx : GoStr :=
  "cdi.k8s.io/".toList

/-- Result of `ParseAnnotations` (`pkg/cdi`, `part_022`): `ok keys devices`
models `(keys, devices, nil)`; `err` models `(nil, nil, non-nil error)`;
`oob` models a panic propagated from `parser.IsQualifiedName` (which
reaches `validateVendorOrClassName`). -/
inductive AnnRes where
  | ok (keys devices : List GoStr)
  | err
  | oob
  deriving DecidableEq

/-- Result of scanning the comma-separated entries of one annotation
value. -/
inductive DevsRes where
  | ok (devices : List GoStr)
  | err
  | oob
  deriving DecidableEq

/-- The inner loop of `ParseAnnotations`: check each comma-separated entry
with `parser.IsQualifiedName`, appending to the devices accumulator; the
first non-qualified entry aborts with the error return. -/
def collectAnnDevices : List GoStr → List GoStr → DevsRes
  | [], devices => .ok devices
  | d :: ds, devices =>
    match IsQualifiedName d with
    | .oob => .oob
    | .err => .err
    | .ok => collectAnnDevices ds (devices ++ [d])

/-- The outer loop of `ParseAnnotations` over the key-value pairs: keys not
carrying the reserved prefix are skipped; for a prefixed key the value's
entries are all checked, then the key is appended.  Go iterates its map in
unspecified order; the model iterates the association list in list
order. -/
def parseAnnLoop : List (GoStr × GoStr) → List GoStr → List GoStr → AnnRes
  | [], keys, devices => .ok keys devices
  | (key, value) :: rest, keys, devices =>
    if !(annotationPfx.isPrefixOf key) then parseAnnLoop rest keys devices
    else
      match collectAnnDevices (splitAll ',' value) devices with
      | .oob => .oob
      | .err => .err
      | .ok devices2 => parseAnnLoop rest (keys ++ [key]) devices2

/-- `ParseAnnotations` from `pkg/cdi` (`part_022`). -/
def ParseAnnotations (ann : List (GoStr × GoStr)) : AnnRes :=
  parseAnnLoop ann [] []

theorem collectAnnDevices_ok {entries devices : List GoStr}
    (h : ∀ d ∈ entries, IsQualifiedName d = .ok) :
    collectAnnDevices entries devices = .ok (devices ++ entries) := by
  induction entries generalizing devices with
  | nil => simp [collectAnnDevices]
  | cons d ds ih =>
    have hd := h d (List.mem_cons_self d ds)
    simp only [collectAnnDevices, hd]
    rw [ih fun x hx => h x (List.mem_cons_of_mem d hx)]
    simp

theorem collectAnnDevices_err {entries devices : List GoStr}
    (hno : ∀ d ∈ entries, IsQualifiedName d ≠ .oob)
    (hex : ∃ d ∈ entries, IsQualifiedName d = .err) :
    collectAnnDevices entries devices = .err := by
  induction entries generalizing devices with
  | nil => simp at hex
  | cons d ds ih =>
    rcases hq : IsQualifiedName d with _ | _ | _
    · simp only [collectAnnDevices, hq]
      refine ih (fun x hx => hno x (List.mem_cons_of_mem d hx)) ?_
      obtain ⟨y, hy, hyq⟩ := hex
      rcases List.mem_cons.mp hy with h1 | h2
      · subst h1
        rw [hq] at hyq
        cases hyq
      · exact ⟨y, h2, hyq⟩
    · simp [collectAnnDevices, hq]
    · exact absurd hq (hno d (List.mem_cons_self d ds))

theorem parseAnnLoop_filter (ann : List (GoStr × GoStr)) (keys devices : List GoStr) :
    parseAnnLoop ann keys devices
      = parseAnnLoop (ann.filter fun kv => annotationPfx.isPrefixOf kv.1) keys devices := by
  induction ann generalizing keys devices with
  | nil => rfl
  | cons kv rest ih =>
    obtain ⟨key, value⟩ := kv
    by_cases hp : annotationPfx.isPrefixOf key
    · rw [List.filter_cons_of_pos (by simpa using hp)]
      simp only [parseAnnLoop, hp, Bool.not_true, Bool.false_eq_true, if_false]
      rcases collectAnnDevices (splitAll ',' value) devices with ds2 | _ | _ <;> simp [ih]
    · rw [List.filter_cons_of_neg (by simpa using hp)]
      simp only [parseAnnLoop, hp, Bool.not_false, if_true]
      exact ih keys devices

theorem parseAnnLoop_ok {ann : List (GoStr × GoStr)} (keys devices : List GoStr)
    (h : ∀ kv ∈ ann, annotationPfx.isPrefixOf kv.1 = true →
      ∀ d ∈ splitAll ',' kv.2, IsQualifiedName d = .ok) :
    parseAnnLoop ann keys devices
      = .ok (keys ++ (ann.filter fun kv => annotationPfx.isPrefixOf kv.1).map Prod.fst)
          (devices
            ++ ((ann.filter fun kv => annotationPfx.isPrefixOf kv.1).map
                  fun kv => splitAll ',' kv.2).flatten) := by
  induction ann generalizing keys devices with
  | nil => simp [parseAnnLoop]
  | cons kv rest ih =>
    obtain ⟨key, value⟩ := kv
    by_cases hp : annotationPfx.isPrefixOf key
    · rw [List.filter_cons_of_pos (by simpa using hp)]
      simp only [parseAnnLoop, hp, Bool.not_true, Bool.false_eq_true, if_false]
      rw [collectAnnDevices_ok (h (key, value) (List.mem_cons_self _ _) hp)]
      show parseAnnLoop rest (keys ++ [key]) (devices ++ splitAll ',' value)
        = _
      rw [ih (keys ++ [key]) (devices ++ splitAll ',' value)
        (fun kv hkv => h kv (List.mem_cons_of_mem _ hkv))]
      simp
    · rw [List.filter_cons_of_neg (by simpa using hp)]
      simp only [parseAnnLoop, hp, Bool.not_false, if_true]
      exact ih keys devices (fun kv hkv => h kv (List.mem_cons_of_mem _ hkv))

theorem parseAnnLoop_err {ann : List (GoStr × GoStr)} (keys devices : List GoStr)
    (hno : ∀ kv ∈ ann, annotationPfx.isPrefixOf kv.1 = true →
      ∀ d ∈ splitAll ',' kv.2, IsQualifiedName d ≠ .oob)
    (hex : ∃ kv ∈ ann, annotationPfx.isPrefixOf kv.1 = true
      ∧ ∃ d ∈ splitAll ',' kv.2, IsQualifiedName d = .err) :
    parseAnnLoop ann keys devices = .err := by
  induction ann generalizing keys devices with
  | nil => simp at hex
  | cons kv rest ih =>
    obtain ⟨key, value⟩ := kv
    by_cases hp : annotationPfx.isPrefixOf key
    · simp only [parseAnnLoop, hp, Bool.not_true, Bool.false_eq_true, if_false]
      by_cases hbad : ∃ d ∈ splitAll ',' value, IsQualifiedName d = .err
      · rw [collectAnnDevices_err (hno (key, value) (List.mem_cons_self _ _) hp) hbad]
      · have hallok : ∀ d ∈ splitAll ',' value, IsQualifiedName d = .ok := by
          intro d hd
          rcases hq : IsQualifiedName d with _ | _ | _
          · rfl
          · exact absurd ⟨d, hd, hq⟩ hbad
          · exact absurd hq (hno (key, value) (List.mem_cons_self _ _) hp d hd)
        rw [collectAnnDevices_ok hallok]
        refine ih (keys ++ [key]) (devices ++ splitAll ',' value)
          (fun kv hkv => hno kv (List.mem_cons_of_mem _ hkv)) ?_
        obtain ⟨kv2, hkv2, hpf2, d2, hd2, hq2⟩ := hex
        rcases List.mem_cons.mp hkv2 with h1 | h2
        · exfalso
          rw [h1] at hd2
          exact absurd ⟨d2, hd2, hq2⟩ hbad
        · exact ⟨kv2, h2, hpf2, d2, hd2, hq2⟩
    · simp only [parseAnnLoop, hp, Bool.not_false, if_true]
      refine ih keys devices (fun kv hkv => hno kv (List.mem_cons_of_mem _ hkv)) ?_
      obtain ⟨kv2, hkv2, hpf2, hrest⟩ := hex
      rcases List.mem_cons.mp hkv2 with h1 | h2
      · exfalso
        rw [h1] at hpf2
        simp only at hpf2
        exact hp (by simpa using hpf2)
      · exact ⟨kv2, h2, hpf2, hrest⟩

end CDI

namespace CDI

/-- C7 counterexample.  In the map `{"cdi.k8s.io/test": "a/b=c,bad"}` the
entry `"bad"` fails the fully-qualified-name check, so the claim as stated
requires `ParseAnnotations` to return empty lists and a non-nil error; but
the earlier entry `"a/b=c"` drives `parser.IsQualifiedName` into the
single-character vendor panic, so `ParseAnnotations` panics instead. -/
theorem parseAnnotations_claim_cex :
    (∃ kv ∈ ([("cdi.k8s.io/test".toList, "a/b=c,bad".toList)] : List (GoStr × GoStr)),
        annotationPfx.isPrefixOf kv.1 = true
          ∧ ∃ d ∈ splitAll ',' kv.2, IsQualifiedName d = .err)
      ∧ ParseAnnotations [("cdi.k8s.io/test".toList, "a/b=c,bad".toList)] = .oob
      ∧ ParseAnnotations [("cdi.k8s.io/test".toList, "a/b=c,bad".toList)] ≠ .err := by
  decide

/-- C7 (amended).  `ParseAnnotations` considers exactly the keys beginning
with the reserved prefix `cdi.k8s.io/` (the result is unchanged when the
other keys are dropped); if every comma-separated entry in the values of
those keys passes the fully-qualified-name check it returns all those keys
and all their device entries; and if some entry fails the check while no
entry makes the check panic (single-character vendor/class, see the
counterexample), it returns empty key and device lists together with a
non-nil error. -/
theorem parseAnnotations_spec (ann : List (GoStr × GoStr)) :
    ParseAnnotations ann
        = ParseAnnotations (ann.filter fun kv => annotationPfx.isPrefixOf kv.1)
    ∧ ((∀ kv ∈ ann, annotationPfx.isPrefixOf kv.1 = true →
          ∀ d ∈ splitAll ',' kv.2, IsQualifiedName d = .ok) →
        ParseAnnotations ann
          = .ok ((ann.filter fun kv => annotationPfx.isPrefixOf kv.1).map Prod.fst)
              (((ann.filter fun kv => annotationPfx.isPrefixOf kv.1).map
                  fun kv => splitAll ',' kv.2).flatten))
    ∧ (((∃ kv ∈ ann, annotationPfx.isPrefixOf kv.1 = true
          ∧ ∃ d ∈ splitAll ',' kv.2, IsQualifiedName d = .err)
        ∧ ∀ kv ∈ ann, annotationPfx.isPrefixOf kv.1 = true →
            ∀ d ∈ splitAll ',' kv.2, IsQualifiedName d ≠ .oob) →
        ParseAnnotations ann = .err) := by
  refine ⟨parseAnnLoop_filter ann [] [], ?_, ?_⟩
  · intro h
    have hres := @parseAnnLoop_ok ann [] [] h
    simpa using hres
  · rintro ⟨hex, hno⟩
    exact parseAnnLoop_err [] [] hno hex

/-- C7 witness: the amended statement's success case evaluated on a
concrete annotation map with one reserved key holding two qualified names
and one foreign key: exactly the reserved key and its entries are
returned. -/
theorem parseAnnotations_spec_witness :
    ParseAnnotations
        [("cdi.k8s.io/vendor.class_dev".toList,
           "vendor.com/class=A,vendor.com/class=B".toList),
         ("other.io/key".toList, "unrelated".toList)]
      = .ok ["cdi.k8s.io/vendor.class_dev".toList]
          ["vendor.com/class=A".toList, "vendor.com/class=B".toList] := by
  have h := (parseAnnotations_spec
    [("cdi.k8s.io/vendor.class_dev".toList,
       "vendor.com/class=A,vendor.com/class=B".toList),
     ("other.io/key".toList, "unrelated".toList)]).2.1 (by decide)
  rw [h]
  decide

end CDI

namespace CDI

/-- Lookup in a string-keyed association list, the model of a Go map
(`Cache.devices`, `Cache.specs`, `Cache.errors` in `part_021`). -/
def alLookup {V : Type} : List (GoStr × V) → GoStr → Option V
  | [], _ => none
  | (k, v) :: rest, key => if k = key then some v else alLookup rest key

/-- Map insert: replace the binding in place, or append a new one. -/
def alInsert {V : Type} : List (GoStr × V) → GoStr → V → List (GoStr × V)
  | [], key, v => [(key, v)]
  | (k, w) :: rest, key, v =>
    if k = key then (key, v) :: rest else (k, w) :: alInsert rest key v

/-- `m[key] = append(m[key], v)` on a map of slices. -/
def alAppendAt {V : Type} (m : List (GoStr × List V)) (key : GoStr) (v : V) :
    List (GoStr × List V) :=
  alInsert m key (((alLookup m key).getD []) ++ [v])

theorem alLookup_alInsert {V : Type} (m : List (GoStr × V)) (k : GoStr) (v : V)
    (k' : GoStr) :
    alLookup (alInsert m k v) k' = if k = k' then some v else alLookup m k' := by
  induction m with
  | nil =>
    simp only [alInsert, alLookup]
  | cons kw rest ih =>
    obtain ⟨k0, w⟩ := kw
    by_cases h0 : k0 = k
    · subst h0
      simp only [alInsert, if_pos rfl, alLookup]
      by_cases h1 : k0 = k'
      · simp [h1]
      · simp [h1]
    · simp only [alInsert, if_neg h0, alLookup, ih]
      by_cases h1 : k0 = k'
      · subst h1
        rw [if_pos rfl, if_neg (fun h => h0 h.symm), if_pos rfl]
      · rw [if_neg h1, if_neg h1]

theorem alInsert_of_lookup_none {V : Type} {m : List (GoStr × V)} {k : GoStr}
    (v : V) (h : alLookup m k = none) : alInsert m k v = m ++ [(k, v)] := by
  induction m with
  | nil => rfl
  | cons kw rest ih =>
    obtain ⟨k0, w⟩ := kw
    rw [alLookup] at h
    by_cases h0 : k0 = k
    · rw [if_pos h0] at h
      cases h
    · rw [if_neg h0] at h
      simp only [alInsert, if_neg h0, List.cons_append, ih h]

theorem alLookup_append {V : Type} (m1 m2 : List (GoStr × V)) (k : GoStr) :
    alLookup (m1 ++ m2) k
      = match alLookup m1 k with
        | some v => some v
        | none => alLookup m2 k := by
  induction m1 with
  | nil => simp [alLookup]
  | cons kw rest ih =>
    obtain ⟨k0, w⟩ := kw
    by_cases h0 : k0 = k
    · simp [alLookup, h0]
    · simp only [List.cons_append, alLookup, if_neg h0, ih, List.append_eq]

theorem mem_alLookup_alAppendAt_self {V : Type} (m : List (GoStr × List V))
    (k : GoStr) (v : V) :
    v ∈ ((alLookup (alAppendAt m k v) k).getD []) := by
  unfold alAppendAt
  rw [alLookup_alInsert, if_pos rfl]
  simp

theorem mem_alLookup_alAppendAt_mono {V : Type} {m : List (GoStr × List V)}
    {p : GoStr} {e : V} (k : GoStr) (v : V)
    (h : e ∈ ((alLookup m p).getD [])) :
    e ∈ ((alLookup (alAppendAt m k v) p).getD []) := by
  unfold alAppendAt
  rw [alLookup_alInsert]
  by_cases hk : k = p
  · subst hk
    rw [if_pos rfl]
    simp only [Option.getD_some]
    exact List.mem_append_left _ h
  · rw [if_neg hk]
    exact h

theorem alAppendAt_ne_nil {V : Type} (m : List (GoStr × List V)) (k : GoStr) (v : V) :
    alAppendAt m k v ≠ [] := by
  unfold alAppendAt
  cases m with
  | nil => simp [alInsert]
  | cons kw rest =>
    obtain ⟨k0, w⟩ := kw
    unfold alInsert
    by_cases h0 : k0 = k
    · simp [h0]
    · simp [h0]

end CDI

namespace CDI

/-- One step of lexical path cleaning: skip empty segments and `"."`, pop
on `".."` (protected at the root; kept when relative and nothing to pop),
push a normal segment. -/
def goCleanStep (rooted : Bool) (stack : List GoStr) (seg : GoStr) : List GoStr :=
  if seg = [] ∨ seg = ['.'] then stack
  else if seg = ['.', '.'] then
    if stack ≠ [] ∧ stack.getLast? ≠ some ['.', '.'] then stack.dropLast
    else if rooted then stack
    else stack ++ [seg]
  else stack ++ [seg]

/-- Join path segments with `'/'`. -/
def joinSlash : List GoStr → GoStr
  | [] => []
  | [s] => s
  | s :: s2 :: rest => s ++ '/' :: joinSlash (s2 :: rest)

/-- `filepath.Clean` (unix), which `Refresh` in `part_021` applies to every
scanned path: the standard segment form of Go's lexical algorithm — split
on `'/'`, drop empty and `"."` segments, resolve `".."` against the stack
(eliminating it at the root, keeping it when relative with nothing to
pop), and rejoin; the empty result is `"."` (or `"/"` when rooted). -/
def goClean (path : GoStr) : GoStr :=
  if path = [] then ['.']
  else
    let rooted := path.head? = some '/'
    let stack := (splitAll '/' path).foldl (goCleanStep rooted) []
    let flat := joinSlash stack
    if rooted then '/' :: flat
    else if flat = [] then ['.']
    else flat

/-- A CDI spec as the cache holds it (`pkg/cdi` `Spec`): the parsed
content plus the path and priority attached at load time.  `vendor` and
`cls` are the parsed halves of the kind. -/
structure CSpec where
  vendor : GoStr
  cls : GoStr
  path : GoStr
  priority : Nat
  edits : ContainerEdits
  devices : List Device
  deriving DecidableEq

/-- A device in the cache's index (`pkg/cdi` `Device`): the raw device with
the back-reference to its spec (`device.go`). -/
structure DeviceRef where
  dev : Device
  spec : CSpec
  deriving DecidableEq

/-- `Device.GetQualifiedName` from `pkg/cdi/device.go`. -/
def DeviceRef.qualified (d : DeviceRef) : GoStr :=
  QualifiedName d.spec.vendor d.spec.cls d.dev.name

/-- The errors `Refresh` (`part_021`) records: a wrapped load failure
(`errId` stands for the underlying error's identity) and an
equal-priority conflict carrying the qualified name and both spec
paths. -/
inductive CDIError where
  | load (errId : Nat) (path : GoStr)
  | conflict (name : GoStr) (devPath oldPath : GoStr)
  deriving DecidableEq

/-- The content a spec file yields when it loads: the parsed kind halves,
spec-level edits and devices.  The loader (`pkg/cdi/spec.go`, external to
the modelled `Refresh`) passes the loaded spec or the load error to the
`Refresh` callback. -/
structure SpecContent where
  vendor : GoStr
  cls : GoStr
  edits : ContainerEdits
  devices : List Device
  deriving DecidableEq

deriving instance DecidableEq for Except

/-- One callback invocation of `scanSpecDirs` as `Refresh` (`part_021`)
sees it: the file path, the priority (the index of the spec directory),
and the loaded spec or its load error. -/
structure ScanEntry where
  path : GoStr
  priority : Nat
  loaded : Except Nat SpecContent
  deriving DecidableEq

/-- The mutable state `Refresh` (`part_021`) builds: `specs` keyed by
vendor, the device index keyed by qualified name, the conflict set, the
per-path error map, and the flat error list returned at the end. -/
structure RState where
  specs : List (GoStr × List CSpec)
  devices : List (GoStr × DeviceRef)
  conflicts : List GoStr
  errors : List (GoStr × List CDIError)
  result : List CDIError
  deriving DecidableEq

def emptyRState : RState :=
  ⟨[], [], [], [], []⟩

/-- `collectError` from `Refresh` (`part_021`): append the error to the
flat list and to the per-path map under each given path. -/
def collectError (err : CDIError) (paths : List GoStr) (st : RState) : RState :=
  {st with
    result := st.result ++ [err],
    errors := paths.foldl (fun es p => alAppendAt es p err) st.errors}

/-- Processing of one device of a loaded spec: the body of the device loop
in `Refresh` (`part_021`), with `resolveConflict` inlined — a strictly
higher priority overwrites, an equal priority records a `ConflictError`
against both paths and marks the name, a lower priority leaves the index
unchanged. -/
def deviceStep (spec : CSpec) (st : RState) (d : Device) : RState :=
  match alLookup st.devices (QualifiedName spec.vendor spec.cls d.name) with
  | some old =>
    if old.spec.priority < spec.priority then
      {st with devices :=
        alInsert st.devices (QualifiedName spec.vendor spec.cls d.name) ⟨d, spec⟩}
    else if spec.priority = old.spec.priority then
      {collectError
          (.conflict (QualifiedName spec.vendor spec.cls d.name) spec.path old.spec.path)
          [spec.path, old.spec.path] st with
        conflicts := (collectError
          (.conflict (QualifiedName spec.vendor spec.cls d.name) spec.path old.spec.path)
          [spec.path, old.spec.path] st).conflicts
            ++ [QualifiedName spec.vendor spec.cls d.name]}
    else st
  | none =>
    {st with devices :=
      alInsert st.devices (QualifiedName spec.vendor spec.cls d.name) ⟨d, spec⟩}

/-- Processing of one scan callback in `Refresh` (`part_021`): clean the
path; record a load failure under the cleaned path and keep going, or
append the spec under its vendor and fold its devices into the index. -/
def mkCSpec (e : ScanEntry) (content : SpecContent) : CSpec :=
  ⟨content.vendor, content.cls, goClean e.path, e.priority, content.edits, content.devices⟩

/-- Processing of one scan callback in `Refresh` (`part_021`): clean the
path; record a load failure under the cleaned path and keep going, or
append the spec under its vendor and fold its devices into the index. -/
def processEntry (st : RState) (e : ScanEntry) : RState :=
  match e.loaded with
  | .error errId => collectError (.load errId (goClean e.path)) [goClean e.path] st
  | .ok content =>
    content.devices.foldl (deviceStep (mkCSpec e content))
      {st with specs := alAppendAt st.specs content.vendor (mkCSpec e content)}

/-- The scan phase of `Refresh` (`part_021`) over the callback
invocations, in scan order (directories in priority order, `priority =
index`). -/
def refreshScan (entries : List ScanEntry) : RState :=
  entries.foldl processEntry emptyRState

/-- `Refresh` from `part_021`: scan, then delete every conflicted name
from the device index, publish the new state, and return the joined error
(`multierror.Append` of `result`) — nil when no error was recorded. -/
def Refresh (entries : List ScanEntry) : RState × Option (List CDIError) :=
  let st := refreshScan entries
  ({st with devices := st.devices.filter fun kv => !(st.conflicts.contains kv.1)},
   if st.result.isEmpty then none else some st.result)

/-- The recorded errors of a path (`Cache.GetErrors` for one path). -/
def errsAt (st : RState) (p : GoStr) : List CDIError :=
  (alLookup st.errors p).getD []

/-- Device resolution against the published index (the `c.devices[name]`
lookup of the cache). -/
def resolveDevice (st : RState) (name : GoStr) : Option DeviceRef :=
  alLookup st.devices name

end CDI

namespace CDI

theorem fold_alAppendAt_mono {p : GoStr} {e err : CDIError}
    (paths : List GoStr) (m : List (GoStr × List CDIError))
    (h : e ∈ ((alLookup m p).getD [])) :
    e ∈ ((alLookup (paths.foldl (fun es r => alAppendAt es r err) m) p).getD []) := by
  induction paths generalizing m with
  | nil => exact h
  | cons q rest ih =>
    simp only [List.foldl_cons]
    exact ih _ (mem_alLookup_alAppendAt_mono q err h)

theorem fold_alAppendAt_self {p : GoStr} {err : CDIError}
    (paths : List GoStr) (m : List (GoStr × List CDIError)) (h : p ∈ paths) :
    err ∈ ((alLookup (paths.foldl (fun es r => alAppendAt es r err) m) p).getD []) := by
  induction paths generalizing m with
  | nil => cases h
  | cons q rest ih =>
    simp only [List.foldl_cons]
    rcases List.mem_cons.mp h with h1 | h2
    · subst h1
      exact fold_alAppendAt_mono rest _ (mem_alLookup_alAppendAt_self m p err)
    · exact ih _ h2

theorem errsAt_collectError_mono {st : RState} {p : GoStr} {e : CDIError}
    (err : CDIError) (paths : List GoStr) (h : e ∈ errsAt st p) :
    e ∈ errsAt (collectError err paths st) p :=
  fold_alAppendAt_mono paths st.errors h

theorem errsAt_collectError_self {st : RState} {p : GoStr}
    (err : CDIError) (paths : List GoStr) (h : p ∈ paths) :
    err ∈ errsAt (collectError err paths st) p :=
  fold_alAppendAt_self paths st.errors h

theorem errsAt_deviceStep_mono {spec : CSpec} {st : RState} {d : Device}
    {p : GoStr} {e : CDIError} (h : e ∈ errsAt st p) :
    e ∈ errsAt (deviceStep spec st d) p := by
  unfold deviceStep
  rcases hl : alLookup st.devices (QualifiedName spec.vendor spec.cls d.name) with _ | old
  · exact h
  · dsimp only
    by_cases h1 : old.spec.priority < spec.priority
    · rw [if_pos h1]
      exact h
    · rw [if_neg h1]
      by_cases h2 : spec.priority = old.spec.priority
      · rw [if_pos h2]
        exact errsAt_collectError_mono _ _ h
      · rw [if_neg h2]
        exact h

theorem conflicts_deviceStep_mono {spec : CSpec} {st : RState} {d : Device}
    {k : GoStr} (h : k ∈ st.conflicts) :
    k ∈ (deviceStep spec st d).conflicts := by
  unfold deviceStep
  rcases hl : alLookup st.devices (QualifiedName spec.vendor spec.cls d.name) with _ | old
  · exact h
  · dsimp only
    by_cases h1 : old.spec.priority < spec.priority
    · rw [if_pos h1]
      exact h
    · rw [if_neg h1]
      by_cases h2 : spec.priority = old.spec.priority
      · rw [if_pos h2]
        exact List.mem_append_left _ h
      · rw [if_neg h2]
        exact h

theorem errsAt_foldDevices_mono {spec : CSpec} {p : GoStr} {e : CDIError}
    (ds : List Device) (st : RState) (h : e ∈ errsAt st p) :
    e ∈ errsAt (ds.foldl (deviceStep spec) st) p := by
  induction ds generalizing st with
  | nil => exact h
  | cons d rest ih =>
    simp only [List.foldl_cons]
    exact ih _ (errsAt_deviceStep_mono h)

theorem conflicts_foldDevices_mono {spec : CSpec} {k : GoStr}
    (ds : List Device) (st : RState) (h : k ∈ st.conflicts) :
    k ∈ (ds.foldl (deviceStep spec) st).conflicts := by
  induction ds generalizing st with
  | nil => exact h
  | cons d rest ih =>
    simp only [List.foldl_cons]
    exact ih _ (conflicts_deviceStep_mono h)

theorem errsAt_processEntry_mono {st : RState} {p : GoStr} {e : CDIError}
    (entry : ScanEntry) (h : e ∈ errsAt st p) :
    e ∈ errsAt (processEntry st entry) p := by
  unfold processEntry
  rcases hl : entry.loaded with i | content
  · exact errsAt_collectError_mono _ _ h
  · exact errsAt_foldDevices_mono _ _ h

theorem errsAt_foldEntries_mono {p : GoStr} {e : CDIError}
    (entries : List ScanEntry) (st : RState) (h : e ∈ errsAt st p) :
    e ∈ errsAt (entries.foldl processEntry st) p := by
  induction entries generalizing st with
  | nil => exact h
  | cons entry rest ih =>
    simp only [List.foldl_cons]
    exact ih _ (errsAt_processEntry_mono entry h)

theorem errsAt_processEntry_load {st : RState} {entry : ScanEntry} {i : Nat}
    (h : entry.loaded = .error i) :
    CDIError.load i (goClean entry.path) ∈ errsAt (processEntry st entry) (goClean entry.path) := by
  unfold processEntry
  rw [h]
  exact errsAt_collectError_self _ _ (List.mem_singleton_self _)

end CDI

namespace CDI

/-- Whether a scan entry loaded successfully. -/
def entryOk (e : ScanEntry) : Bool :=
  match e.loaded with
  | .ok _ => true
  | .error _ => false

theorem refreshScan_load_mem {e : ScanEntry} {i : Nat}
    (entries : List ScanEntry) (st : RState)
    (hmem : e ∈ entries) (herr : e.loaded = .error i) :
    CDIError.load i (goClean e.path) ∈ errsAt (entries.foldl processEntry st) (goClean e.path) := by
  induction entries generalizing st with
  | nil => cases hmem
  | cons entry rest ih =>
    simp only [List.foldl_cons]
    rcases List.mem_cons.mp hmem with h1 | h2
    · subst h1
      exact errsAt_foldEntries_mono rest _ (errsAt_processEntry_load herr)
    · exact ih _ h2

/-- The device-index-relevant projection of the refresh state. -/
def projDC (st : RState) : List (GoStr × DeviceRef) × List GoStr :=
  (st.devices, st.conflicts)

theorem projDC_collectError (err : CDIError) (paths : List GoStr) (st : RState) :
    projDC (collectError err paths st) = projDC st := rfl

theorem deviceStep_projDC_congr {spec : CSpec} {st st' : RState} {d : Device}
    (h : projDC st = projDC st') :
    projDC (deviceStep spec st d) = projDC (deviceStep spec st' d) := by
  have hd : st.devices = st'.devices := congrArg Prod.fst h
  have hc : st.conflicts = st'.conflicts := congrArg Prod.snd h
  unfold deviceStep
  rw [← hd]
  rcases hl : alLookup st.devices (QualifiedName spec.vendor spec.cls d.name) with _ | old
  · simp only [projDC, hd, hc]
  · dsimp only
    by_cases h1 : old.spec.priority < spec.priority
    · simp only [if_pos h1, projDC, hd, hc]
    · simp only [if_neg h1]
      by_cases h2 : spec.priority = old.spec.priority
      · simp only [if_pos h2, projDC, collectError, hd, hc]
      · simp only [if_neg h2]
        exact h

theorem foldDevices_projDC_congr {spec : CSpec} {st st' : RState}
    (ds : List Device) (h : projDC st = projDC st') :
    projDC (ds.foldl (deviceStep spec) st) = projDC (ds.foldl (deviceStep spec) st') := by
  induction ds generalizing st st' with
  | nil => exact h
  | cons d rest ih =>
    simp only [List.foldl_cons]
    exact ih (deviceStep_projDC_congr h)

theorem processEntry_projDC_congr {st st' : RState} (e : ScanEntry)
    (h : projDC st = projDC st') :
    projDC (processEntry st e) = projDC (processEntry st' e) := by
  unfold processEntry
  rcases hl : e.loaded with i | content
  · simpa only [projDC, collectError] using h
  · refine foldDevices_projDC_congr _ ?_
    simpa only [projDC] using h

theorem processEntry_err_projDC {st : RState} {e : ScanEntry} {i : Nat}
    (herr : e.loaded = .error i) :
    projDC (processEntry st e) = projDC st := by
  unfold processEntry
  rw [herr]
  rfl

theorem foldEntries_filter_projDC (entries : List ScanEntry) (st st' : RState)
    (h : projDC st = projDC st') :
    projDC (entries.foldl processEntry st)
      = projDC ((entries.filter entryOk).foldl processEntry st') := by
  induction entries generalizing st st' with
  | nil => exact h
  | cons e rest ih =>
    rcases hl : e.loaded with i | content
    · have hok : entryOk e = false := by simp [entryOk, hl]
      rw [List.filter_cons_of_neg (by simp [hok])]
      simp only [List.foldl_cons]
      exact ih _ _ ((processEntry_err_projDC hl).trans h)
    · have hok : entryOk e = true := by simp [entryOk, hl]
      rw [List.filter_cons_of_pos (by simp [hok])]
      simp only [List.foldl_cons]
      exact ih _ _ (processEntry_projDC_congr e h)

theorem fold_alAppendAt_ne_nil {err : CDIError}
    (paths : List GoStr) (m : List (GoStr × List CDIError))
    (h : paths ≠ [] ∨ m ≠ []) :
    paths.foldl (fun es r => alAppendAt es r err) m ≠ [] := by
  induction paths generalizing m with
  | nil =>
    rcases h with h1 | h2
    · exact absurd rfl h1
    · exact h2
  | cons q rest ih =>
    simp only [List.foldl_cons]
    exact ih _ (Or.inr (alAppendAt_ne_nil m q err))

/-- The flat error list and the per-path error map are empty together. -/
def InvRE (st : RState) : Prop :=
  st.result = [] ↔ st.errors = []

theorem collectError_invRE {err : CDIError} {paths : List GoStr} {st : RState}
    (hp : paths ≠ []) : InvRE (collectError err paths st) := by
  unfold InvRE collectError
  simp only []
  constructor
  · intro h
    exact absurd h (by simp)
  · intro h
    exact absurd h (fold_alAppendAt_ne_nil paths st.errors (Or.inl hp))

theorem deviceStep_invRE {spec : CSpec} {st : RState} {d : Device}
    (h : InvRE st) : InvRE (deviceStep spec st d) := by
  unfold deviceStep
  rcases hl : alLookup st.devices (QualifiedName spec.vendor spec.cls d.name) with _ | old
  · exact h
  · dsimp only
    by_cases h1 : old.spec.priority < spec.priority
    · rw [if_pos h1]
      exact h
    · rw [if_neg h1]
      by_cases h2 : spec.priority = old.spec.priority
      · rw [if_pos h2]
        exact collectError_invRE (by simp)
      · rw [if_neg h2]
        exact h

theorem foldDevices_invRE {spec : CSpec} (ds : List Device) (st : RState)
    (h : InvRE st) : InvRE (ds.foldl (deviceStep spec) st) := by
  induction ds generalizing st with
  | nil => exact h
  | cons d rest ih =>
    simp only [List.foldl_cons]
    exact ih _ (deviceStep_invRE h)

theorem processEntry_invRE {st : RState} (e : ScanEntry) (h : InvRE st) :
    InvRE (processEntry st e) := by
  unfold processEntry
  rcases hl : e.loaded with i | content
  · exact collectError_invRE (by simp)
  · exact foldDevices_invRE _ _ h

theorem refreshScan_invRE (entries : List ScanEntry) :
    InvRE (refreshScan entries) := by
  unfold refreshScan
  have base : InvRE emptyRState := by
    unfold InvRE emptyRState
    simp
  generalize emptyRState = st at base ⊢
  induction entries generalizing st with
  | nil => exact base
  | cons e rest ih =>
    simp only [List.foldl_cons]
    exact ih _ (processEntry_invRE e base)

/-- C6.  Refresh never aborts on a bad spec file: every load failure is
recorded in the per-path error map under the cleaned file path; the
published device index equals the one built from the successfully loaded
entries alone; and the returned joined error is nil exactly when no
failure was recorded. -/
theorem refresh_records_and_publishes (entries : List ScanEntry) :
    (∀ e ∈ entries, ∀ i : Nat, e.loaded = .error i →
        CDIError.load i (goClean e.path) ∈ errsAt (Refresh entries).1 (goClean e.path))
    ∧ (Refresh entries).1.devices = (Refresh (entries.filter entryOk)).1.devices
    ∧ ((Refresh entries).2 = none ↔ (Refresh entries).1.errors = []) := by
  refine ⟨?_, ?_, ?_⟩
  · intro e hmem i herr
    exact refreshScan_load_mem entries emptyRState hmem herr
  · have hproj := foldEntries_filter_projDC entries emptyRState emptyRState rfl
    have hd : (refreshScan entries).devices
        = (refreshScan (entries.filter entryOk)).devices := congrArg Prod.fst hproj
    have hc : (refreshScan entries).conflicts
        = (refreshScan (entries.filter entryOk)).conflicts := congrArg Prod.snd hproj
    show ((refreshScan entries).devices.filter _)
        = ((refreshScan (entries.filter entryOk)).devices.filter _)
    rw [hd, hc]
  · have hinv := refreshScan_invRE entries
    unfold InvRE at hinv
    show (if (refreshScan entries).result.isEmpty then none
          else some (refreshScan entries).result) = none
        ↔ (refreshScan entries).errors = []
    rcases hres : (refreshScan entries).result with _ | ⟨r, rest⟩
    · simp only [List.isEmpty_nil, if_true]
      rw [hres] at hinv
      simp [hinv.mp rfl]
    · simp only [List.isEmpty_cons, Bool.false_eq_true, if_false]
      rw [hres] at hinv
      constructor
      · intro hc
        cases hc
      · intro he
        exact absurd (hinv.mpr he) (by simp)

/-- C6 witness: the claim evaluated on a concrete scan with one failing
and one successfully loading entry. -/
theorem refresh_records_and_publishes_witness :
    (∀ e ∈ [ScanEntry.mk "/etc/cdi/bad.json".toList 0 (.error 7),
            ScanEntry.mk "/etc/cdi/good.json".toList 0
              (.ok ⟨"vendor1.com".toList, "device".toList,
                ⟨[], [], [], [], none, []⟩,
                [⟨"dev1".toList, [], ⟨["VENDOR1_VAR1=VAL1".toList], [], [], [], none, []⟩⟩]⟩)],
        ∀ i : Nat, e.loaded = .error i →
        CDIError.load i (goClean e.path) ∈
          errsAt (Refresh [ScanEntry.mk "/etc/cdi/bad.json".toList 0 (.error 7),
            ScanEntry.mk "/etc/cdi/good.json".toList 0
              (.ok ⟨"vendor1.com".toList, "device".toList,
                ⟨[], [], [], [], none, []⟩,
                [⟨"dev1".toList, [], ⟨["VENDOR1_VAR1=VAL1".toList], [], [], [], none, []⟩⟩]⟩)]).1
            (goClean e.path))
    ∧ (Refresh [ScanEntry.mk "/etc/cdi/bad.json".toList 0 (.error 7),
        ScanEntry.mk "/etc/cdi/good.json".toList 0
          (.ok ⟨"vendor1.com".toList, "device".toList,
            ⟨[], [], [], [], none, []⟩,
            [⟨"dev1".toList, [], ⟨["VENDOR1_VAR1=VAL1".toList], [], [], [], none, []⟩⟩]⟩)]).1.devices
      = (Refresh ([ScanEntry.mk "/etc/cdi/bad.json".toList 0 (.error 7),
          ScanEntry.mk "/etc/cdi/good.json".toList 0
            (.ok ⟨"vendor1.com".toList, "device".toList,
              ⟨[], [], [], [], none, []⟩,
              [⟨"dev1".toList, [], ⟨["VENDOR1_VAR1=VAL1".toList], [], [], [], none, []⟩⟩]⟩)].filter
          entryOk)).1.devices
    ∧ ((Refresh [ScanEntry.mk "/etc/cdi/bad.json".toList 0 (.error 7),
        ScanEntry.mk "/etc/cdi/good.json".toList 0
          (.ok ⟨"vendor1.com".toList, "device".toList,
            ⟨[], [], [], [], none, []⟩,
            [⟨"dev1".toList, [], ⟨["VENDOR1_VAR1=VAL1".toList], [], [], [], none, []⟩⟩]⟩)]).2 = none
      ↔ (Refresh [ScanEntry.mk "/etc/cdi/bad.json".toList 0 (.error 7),
          ScanEntry.mk "/etc/cdi/good.json".toList 0
            (.ok ⟨"vendor1.com".toList, "device".toList,
              ⟨[], [], [], [], none, []⟩,
              [⟨"dev1".toList, [], ⟨["VENDOR1_VAR1=VAL1".toList], [], [], [], none, []⟩⟩]⟩)]).1.errors
          = []) :=
  refresh_records_and_publishes
    [ScanEntry.mk "/etc/cdi/bad.json".toList 0 (.error 7),
     ScanEntry.mk "/etc/cdi/good.json".toList 0
       (.ok ⟨"vendor1.com".toList, "device".toList,
         ⟨[], [], [], [], none, []⟩,
         [⟨"dev1".toList, [], ⟨["VENDOR1_VAR1=VAL1".toList], [], [], [], none, []⟩⟩]⟩)]

end CDI

namespace CDI

theorem qualifiedName_inj {v c n1 n2 : GoStr}
    (h : QualifiedName v c n1 = QualifiedName v c n2) : n1 = n2 := by
  unfold QualifiedName at h
  have h1 : '/' :: (c ++ '=' :: n1) = '/' :: (c ++ '=' :: n2) := by
    have := List.append_cancel_left h
    simpa using this
  have h2 : c ++ '=' :: n1 = c ++ '=' :: n2 := List.cons_injective h1
  have h3 : '=' :: n1 = '=' :: n2 := List.append_cancel_left h2
  exact List.cons_injective h3

theorem alLookup_filter_conflicts {m : List (GoStr × DeviceRef)} {conf : List GoStr}
    {k : GoStr} (h : k ∈ conf) :
    alLookup (m.filter fun kv => !(conf.contains kv.1)) k = none := by
  induction m with
  | nil => rfl
  | cons kv rest ih =>
    obtain ⟨k0, v⟩ := kv
    by_cases hcc : conf.contains k0 = true
    · rw [List.filter_cons_of_neg (by rw [hcc]; decide)]
      exact ih
    · have hcf : conf.contains k0 = false := by
        simpa using hcc
      rw [List.filter_cons_of_pos (by rw [hcf]; decide)]
      have h0 : k0 ≠ k := by
        intro he
        subst he
        exact hcc (by simpa using h)
      rw [alLookup, if_neg h0]
      exact ih

theorem name_ne_of_nodup {d : Device} {rest : List Device} {dd : Device}
    (hnodup : ((d :: rest).map Device.name).Nodup) (hmem : dd ∈ rest) :
    dd.name ≠ d.name := by
  rw [List.map_cons, List.nodup_cons] at hnodup
  intro he
  exact hnodup.1 (he ▸ List.mem_map_of_mem Device.name hmem)

theorem foldDevices_fresh (spec : CSpec) (ds : List Device) (st : RState)
    (hnone : ∀ d ∈ ds, alLookup st.devices (QualifiedName spec.vendor spec.cls d.name) = none)
    (hnodup : (ds.map Device.name).Nodup) :
    ds.foldl (deviceStep spec) st
      = {st with devices := st.devices
          ++ ds.map fun d =>
              (QualifiedName spec.vendor spec.cls d.name, (⟨d, spec⟩ : DeviceRef))} := by
  induction ds generalizing st with
  | nil => simp
  | cons d rest ih =>
    simp only [List.foldl_cons]
    have hd0 := hnone d (List.mem_cons_self d rest)
    have hnodup2 : (rest.map Device.name).Nodup := by
      rw [List.map_cons, List.nodup_cons] at hnodup
      exact hnodup.2
    have hstep : deviceStep spec st d
        = {st with devices := st.devices
            ++ [(QualifiedName spec.vendor spec.cls d.name, (⟨d, spec⟩ : DeviceRef))]} := by
      unfold deviceStep
      rw [hd0]
      dsimp only
      rw [alInsert_of_lookup_none _ hd0]
    have hrest : ∀ d2 ∈ rest,
        alLookup (st.devices ++ [(QualifiedName spec.vendor spec.cls d.name,
            (⟨d, spec⟩ : DeviceRef))])
          (QualifiedName spec.vendor spec.cls d2.name) = none := by
      intro d2 hd2
      rw [alLookup_append, hnone d2 (List.mem_cons_of_mem d hd2)]
      have hne : QualifiedName spec.vendor spec.cls d.name
          ≠ QualifiedName spec.vendor spec.cls d2.name := by
        intro he
        exact name_ne_of_nodup hnodup hd2 (qualifiedName_inj he).symm
      simp only [alLookup, if_neg hne]
    rw [hstep]
    rw [ih _ hrest hnodup2]
    simp

theorem alLookup_freshMap (spec : CSpec) {ds : List Device} {dd : Device}
    (hnodup : (ds.map Device.name).Nodup) (hmem : dd ∈ ds) :
    alLookup (ds.map fun d =>
        (QualifiedName spec.vendor spec.cls d.name, (⟨d, spec⟩ : DeviceRef)))
      (QualifiedName spec.vendor spec.cls dd.name) = some ⟨dd, spec⟩ := by
  induction ds with
  | nil => cases hmem
  | cons d rest ih =>
    rcases List.mem_cons.mp hmem with h1 | h2
    · subst h1
      simp [alLookup]
    · have hne : QualifiedName spec.vendor spec.cls d.name
          ≠ QualifiedName spec.vendor spec.cls dd.name := by
        intro he
        exact name_ne_of_nodup hnodup h2 (qualifiedName_inj he).symm
      simp only [List.map_cons, alLookup, if_neg hne]
      exact ih (by
        rw [List.map_cons, List.nodup_cons] at hnodup
        exact hnodup.2) h2

theorem alLookup_freshMap_spec (spec : CSpec) (ds : List Device) (k : GoStr)
    (r : DeviceRef)
    (h : alLookup (ds.map fun d =>
        (QualifiedName spec.vendor spec.cls d.name, (⟨d, spec⟩ : DeviceRef))) k
      = some r) : r.spec = spec := by
  induction ds with
  | nil => cases h
  | cons d rest ih =>
    simp only [List.map_cons, alLookup] at h
    by_cases h0 : QualifiedName spec.vendor spec.cls d.name = k
    · rw [if_pos h0] at h
      cases h
      rfl
    · rw [if_neg h0] at h
      exact ih h

end CDI

namespace CDI

theorem foldDevices_keep (spec : CSpec) (ds : List Device) (st : RState)
    (hnodup : (ds.map Device.name).Nodup)
    (hlow : ∀ d ∈ ds, ∀ r,
      alLookup st.devices (QualifiedName spec.vendor spec.cls d.name) = some r →
      spec.priority < r.spec.priority) :
    (ds.foldl (deviceStep spec) st).errors = st.errors
    ∧ (ds.foldl (deviceStep spec) st).result = st.result
    ∧ (ds.foldl (deviceStep spec) st).conflicts = st.conflicts
    ∧ ∀ k r, alLookup st.devices k = some r →
        alLookup (ds.foldl (deviceStep spec) st).devices k = some r := by
  induction ds generalizing st with
  | nil => exact ⟨rfl, rfl, rfl, fun _ _ h => h⟩
  | cons d rest ih =>
    have hnodup2 : (rest.map Device.name).Nodup := by
      rw [List.map_cons, List.nodup_cons] at hnodup
      exact hnodup.2
    simp only [List.foldl_cons]
    rcases hl : alLookup st.devices (QualifiedName spec.vendor spec.cls d.name) with _ | r
    · have hstep : deviceStep spec st d
          = {st with devices := st.devices
              ++ [(QualifiedName spec.vendor spec.cls d.name, (⟨d, spec⟩ : DeviceRef))]} := by
        unfold deviceStep
        rw [hl]
        dsimp only
        rw [alInsert_of_lookup_none _ hl]
      rw [hstep]
      have hlow2 : ∀ d2 ∈ rest, ∀ r,
          alLookup (st.devices ++ [(QualifiedName spec.vendor spec.cls d.name,
              (⟨d, spec⟩ : DeviceRef))])
            (QualifiedName spec.vendor spec.cls d2.name) = some r →
          spec.priority < r.spec.priority := by
        intro d2 hd2 r hr
        rw [alLookup_append] at hr
        rcases hr2 : alLookup st.devices (QualifiedName spec.vendor spec.cls d2.name) with _ | r2
        · rw [hr2] at hr
          have hne : QualifiedName spec.vendor spec.cls d.name
              ≠ QualifiedName spec.vendor spec.cls d2.name := by
            intro he
            exact name_ne_of_nodup hnodup hd2 (qualifiedName_inj he).symm
          simp only [alLookup, if_neg hne] at hr
          cases hr
        · rw [hr2] at hr
          cases hr
          exact hlow d2 (List.mem_cons_of_mem d hd2) _ hr2
      obtain ⟨he, hr, hc, hk⟩ := ih
        ({st with devices := st.devices ++ [(QualifiedName spec.vendor spec.cls d.name, (⟨d, spec⟩ : DeviceRef))]}) hnodup2 hlow2
      refine ⟨he, hr, hc, ?_⟩
      intro k r hkr
      refine hk k r ?_
      rw [alLookup_append, hkr]
    · have hlt := hlow d (List.mem_cons_self d rest) r hl
      have hstep : deviceStep spec st d = st := by
        unfold deviceStep
        rw [hl]
        dsimp only
        rw [if_neg (by omega), if_neg (by omega)]
      rw [hstep]
      exact ih _ hnodup2 (fun d2 hd2 => hlow d2 (List.mem_cons_of_mem d hd2))

theorem foldDevices_replace (spec : CSpec) (ds : List Device) (st : RState)
    (hnodup : (ds.map Device.name).Nodup)
    (hhigh : ∀ d ∈ ds, ∀ r,
      alLookup st.devices (QualifiedName spec.vendor spec.cls d.name) = some r →
      r.spec.priority < spec.priority) :
    (ds.foldl (deviceStep spec) st).errors = st.errors
    ∧ (ds.foldl (deviceStep spec) st).result = st.result
    ∧ (ds.foldl (deviceStep spec) st).conflicts = st.conflicts
    ∧ (∀ dd ∈ ds, alLookup (ds.foldl (deviceStep spec) st).devices
        (QualifiedName spec.vendor spec.cls dd.name) = some ⟨dd, spec⟩)
    ∧ (∀ k, (∀ dd ∈ ds, k ≠ QualifiedName spec.vendor spec.cls dd.name) →
        alLookup (ds.foldl (deviceStep spec) st).devices k = alLookup st.devices k) := by
  induction ds generalizing st with
  | nil => exact ⟨rfl, rfl, rfl, fun _ h => absurd h (List.not_mem_nil _), fun _ _ => rfl⟩
  | cons d rest ih =>
    have hnodup2 : (rest.map Device.name).Nodup := by
      rw [List.map_cons, List.nodup_cons] at hnodup
      exact hnodup.2
    simp only [List.foldl_cons]
    have hstep : deviceStep spec st d
        = {st with devices :=
            alInsert st.devices (QualifiedName spec.vendor spec.cls d.name) ⟨d, spec⟩} := by
      unfold deviceStep
      rcases hl : alLookup st.devices (QualifiedName spec.vendor spec.cls d.name) with _ | r
      · dsimp only
      · dsimp only
        rw [if_pos (hhigh d (List.mem_cons_self d rest) r hl)]
    rw [hstep]
    have hhigh2 : ∀ d2 ∈ rest, ∀ r,
        alLookup (alInsert st.devices (QualifiedName spec.vendor spec.cls d.name)
            (⟨d, spec⟩ : DeviceRef))
          (QualifiedName spec.vendor spec.cls d2.name) = some r →
        r.spec.priority < spec.priority := by
      intro d2 hd2 r hr
      rw [alLookup_alInsert] at hr
      have hne : QualifiedName spec.vendor spec.cls d.name
          ≠ QualifiedName spec.vendor spec.cls d2.name := by
        intro he
        exact name_ne_of_nodup hnodup hd2 (qualifiedName_inj he).symm
      rw [if_neg hne] at hr
      exact hhigh d2 (List.mem_cons_of_mem d hd2) r hr
    obtain ⟨he, hr, hc, hmem, hne⟩ := ih
      ({st with devices := alInsert st.devices (QualifiedName spec.vendor spec.cls d.name) ⟨d, spec⟩}) hnodup2 hhigh2
    refine ⟨he, hr, hc, ?_, ?_⟩
    · intro dd hdd
      rcases List.mem_cons.mp hdd with h1 | h2
      · subst h1
        rw [hne _ ?_]
        · rw [alLookup_alInsert, if_pos rfl]
        · intro d2 hd2 he2
          exact name_ne_of_nodup hnodup hd2 (qualifiedName_inj he2).symm
      · exact hmem dd h2
    · intro k hk
      rw [hne k (fun dd hdd => hk dd (List.mem_cons_of_mem d hdd))]
      rw [alLookup_alInsert, if_neg ?_]
      intro he2
      exact hk d (List.mem_cons_self d rest) he2.symm

end CDI

namespace CDI

theorem foldDevices_conflict (spec : CSpec) (ds : List Device) (st : RState)
    (dd : Device) (refOld : DeviceRef)
    (hnodup : (ds.map Device.name).Nodup)
    (heq : ∀ d ∈ ds, ∀ r,
      alLookup st.devices (QualifiedName spec.vendor spec.cls d.name) = some r →
      r.spec.priority = spec.priority)
    (hmem : dd ∈ ds)
    (hold : alLookup st.devices (QualifiedName spec.vendor spec.cls dd.name) = some refOld) :
    QualifiedName spec.vendor spec.cls dd.name ∈ (ds.foldl (deviceStep spec) st).conflicts
    ∧ CDIError.conflict (QualifiedName spec.vendor spec.cls dd.name)
        spec.path refOld.spec.path
        ∈ errsAt (ds.foldl (deviceStep spec) st) spec.path
    ∧ CDIError.conflict (QualifiedName spec.vendor spec.cls dd.name)
        spec.path refOld.spec.path
        ∈ errsAt (ds.foldl (deviceStep spec) st) refOld.spec.path := by
  induction ds generalizing st with
  | nil => cases hmem
  | cons d rest ih =>
    have hnodup2 : (rest.map Device.name).Nodup := by
      rw [List.map_cons, List.nodup_cons] at hnodup
      exact hnodup.2
    simp only [List.foldl_cons]
    rcases List.mem_cons.mp hmem with h1 | h2
    · subst h1
      have hpr := heq dd (List.mem_cons_self dd rest) refOld hold
      have hstep : deviceStep spec st dd
          = {collectError
              (.conflict (QualifiedName spec.vendor spec.cls dd.name) spec.path refOld.spec.path)
              [spec.path, refOld.spec.path] st with
            conflicts := (collectError
              (.conflict (QualifiedName spec.vendor spec.cls dd.name) spec.path refOld.spec.path)
              [spec.path, refOld.spec.path] st).conflicts
                ++ [QualifiedName spec.vendor spec.cls dd.name]} := by
        unfold deviceStep
        rw [hold]
        dsimp only
        rw [if_neg (by omega), if_pos (by omega)]
      rw [hstep]
      refine ⟨?_, ?_, ?_⟩
      · refine conflicts_foldDevices_mono rest _ ?_
        exact List.mem_append_right _ (List.mem_singleton_self _)
      · refine errsAt_foldDevices_mono rest _ ?_
        show _ ∈ errsAt (collectError _ [spec.path, refOld.spec.path] st) spec.path
        exact errsAt_collectError_self _ _ (List.mem_cons_self _ _)
      · refine errsAt_foldDevices_mono rest _ ?_
        show _ ∈ errsAt (collectError _ [spec.path, refOld.spec.path] st) refOld.spec.path
        exact errsAt_collectError_self _ _
          (List.mem_cons_of_mem _ (List.mem_singleton_self _))
    · have hdne : d.name ≠ dd.name := fun he => name_ne_of_nodup hnodup h2 he.symm
      have hqne : QualifiedName spec.vendor spec.cls d.name
          ≠ QualifiedName spec.vendor spec.cls dd.name := by
        intro he
        exact hdne (qualifiedName_inj he)
      rcases hl : alLookup st.devices (QualifiedName spec.vendor spec.cls d.name) with _ | r
      · have hstep : deviceStep spec st d
            = {st with devices := alInsert st.devices (QualifiedName spec.vendor spec.cls d.name) ⟨d, spec⟩} := by
          unfold deviceStep
          rw [hl]
        rw [hstep]
        refine ih _ hnodup2 ?_ h2 ?_
        · intro d2 hd2 r2 hr2
          rw [alLookup_alInsert] at hr2
          have hne2 : QualifiedName spec.vendor spec.cls d.name
              ≠ QualifiedName spec.vendor spec.cls d2.name := by
            intro he
            exact name_ne_of_nodup hnodup hd2 (qualifiedName_inj he).symm
          rw [if_neg hne2] at hr2
          exact heq d2 (List.mem_cons_of_mem d hd2) r2 hr2
        · rw [alLookup_alInsert, if_neg hqne]
          exact hold
      · have hpr := heq d (List.mem_cons_self d rest) r hl
        have hstep : deviceStep spec st d
            = {collectError
                (.conflict (QualifiedName spec.vendor spec.cls d.name) spec.path r.spec.path)
                [spec.path, r.spec.path] st with
              conflicts := (collectError
                (.conflict (QualifiedName spec.vendor spec.cls d.name) spec.path r.spec.path)
                [spec.path, r.spec.path] st).conflicts
                  ++ [QualifiedName spec.vendor spec.cls d.name]} := by
          unfold deviceStep
          rw [hl]
          dsimp only
          rw [if_neg (by omega), if_pos (by omega)]
        rw [hstep]
        refine ih _ hnodup2 ?_ h2 ?_
        · intro d2 hd2 r2 hr2
          exact heq d2 (List.mem_cons_of_mem d hd2) r2 hr2
        · exact hold

end CDI

namespace CDI

/-- A scan callback for a successfully loaded spec file. -/
def entryFor (p : GoStr) (prio : Nat) (c : SpecContent) : ScanEntry :=
  ⟨p, prio, .ok c⟩

/-- The device-index entries one freshly processed spec contributes. -/
def freshDevices (e : ScanEntry) (c : SpecContent) : List (GoStr × DeviceRef) :=
  c.devices.map fun d =>
    (QualifiedName (mkCSpec e c).vendor (mkCSpec e c).cls d.name,
     (⟨d, mkCSpec e c⟩ : DeviceRef))

/-- The scan state after the first of two loaded entries was processed and
the second entry's spec was registered, before the second entry's devices
are folded in. -/
def scanStateTwo (f : GoStr) (pf : Nat) (cf : SpecContent)
    (s : GoStr) (ps : Nat) (cs : SpecContent) : RState :=
  { specs := alAppendAt (alAppendAt emptyRState.specs cf.vendor (mkCSpec (entryFor f pf cf) cf)) cs.vendor (mkCSpec (entryFor s ps cs) cs),
    devices := [] ++ freshDevices (entryFor f pf cf) cf,
    conflicts := [],
    errors := [],
    result := [] }

theorem refreshScan_two (f : GoStr) (pf : Nat) (cf : SpecContent)
    (s : GoStr) (ps : Nat) (cs : SpecContent)
    (hnF : (cf.devices.map Device.name).Nodup) :
    refreshScan [entryFor f pf cf, entryFor s ps cs]
      = cs.devices.foldl (deviceStep (mkCSpec (entryFor s ps cs) cs))
          (scanStateTwo f pf cf s ps cs) := by
  have hstep1 : processEntry emptyRState (entryFor f pf cf)
      = cf.devices.foldl (deviceStep (mkCSpec (entryFor f pf cf) cf))
          {emptyRState with specs := alAppendAt emptyRState.specs cf.vendor (mkCSpec (entryFor f pf cf) cf)} := rfl
  have hfresh := foldDevices_fresh (mkCSpec (entryFor f pf cf) cf) cf.devices
      {emptyRState with specs := alAppendAt emptyRState.specs cf.vendor (mkCSpec (entryFor f pf cf) cf)}
      (fun d _ => rfl) hnF
  have hscan : refreshScan [entryFor f pf cf, entryFor s ps cs]
      = processEntry (processEntry emptyRState (entryFor f pf cf)) (entryFor s ps cs) := rfl
  rw [hscan, hstep1, hfresh]
  rfl

theorem lookup_scanStateTwo_spec (f : GoStr) (pf : Nat) (cf : SpecContent)
    (s : GoStr) (ps : Nat) (cs : SpecContent) (k : GoStr) (r : DeviceRef)
    (h : alLookup (scanStateTwo f pf cf s ps cs).devices k = some r) :
    r.spec = mkCSpec (entryFor f pf cf) cf := by
  have h2 : alLookup (freshDevices (entryFor f pf cf) cf) k = some r := by
    simpa [scanStateTwo] using h
  exact alLookup_freshMap_spec (mkCSpec (entryFor f pf cf) cf) cf.devices k r h2

theorem lookup_scanStateTwo_mem (f : GoStr) (pf : Nat) (cf : SpecContent)
    (s : GoStr) (ps : Nat) (cs : SpecContent) {dd : Device}
    (hnF : (cf.devices.map Device.name).Nodup) (hmem : dd ∈ cf.devices) :
    alLookup (scanStateTwo f pf cf s ps cs).devices
        (QualifiedName cf.vendor cf.cls dd.name)
      = some ⟨dd, mkCSpec (entryFor f pf cf) cf⟩ := by
  show alLookup ([] ++ freshDevices (entryFor f pf cf) cf) _ = _
  rw [List.nil_append]
  exact alLookup_freshMap (mkCSpec (entryFor f pf cf) cf) hnF hmem

theorem scan_two_replace (a b : GoStr) (pa pb : Nat) (ca cb : SpecContent)
    (da : Device)
    (hnA : (ca.devices.map Device.name).Nodup)
    (hnB : (cb.devices.map Device.name).Nodup)
    (hda : da ∈ ca.devices) (hlt : pb < pa) :
    (refreshScan [entryFor b pb cb, entryFor a pa ca]).errors = []
    ∧ (refreshScan [entryFor b pb cb, entryFor a pa ca]).result = []
    ∧ (refreshScan [entryFor b pb cb, entryFor a pa ca]).conflicts = []
    ∧ alLookup (refreshScan [entryFor b pb cb, entryFor a pa ca]).devices
        (QualifiedName ca.vendor ca.cls da.name)
        = some ⟨da, mkCSpec (entryFor a pa ca) ca⟩ := by
  rw [refreshScan_two b pb cb a pa ca hnB]
  have hhigh : ∀ d ∈ ca.devices, ∀ r,
      alLookup (scanStateTwo b pb cb a pa ca).devices
        (QualifiedName (mkCSpec (entryFor a pa ca) ca).vendor
          (mkCSpec (entryFor a pa ca) ca).cls d.name) = some r →
      r.spec.priority < (mkCSpec (entryFor a pa ca) ca).priority := by
    intro d _ r hr
    rw [lookup_scanStateTwo_spec b pb cb a pa ca _ r hr]
    exact hlt
  obtain ⟨he, hr, hcf, hmem, _⟩ := foldDevices_replace (mkCSpec (entryFor a pa ca) ca)
    ca.devices (scanStateTwo b pb cb a pa ca) hnA hhigh
  exact ⟨he, hr, hcf, hmem da hda⟩

end CDI

namespace CDI

theorem scan_two_keep (a b : GoStr) (pa pb : Nat) (ca cb : SpecContent)
    (da : Device)
    (hnA : (ca.devices.map Device.name).Nodup)
    (hnB : (cb.devices.map Device.name).Nodup)
    (hda : da ∈ ca.devices) (hlt : pb < pa) :
    (refreshScan [entryFor a pa ca, entryFor b pb cb]).errors = []
    ∧ (refreshScan [entryFor a pa ca, entryFor b pb cb]).result = []
    ∧ (refreshScan [entryFor a pa ca, entryFor b pb cb]).conflicts = []
    ∧ alLookup (refreshScan [entryFor a pa ca, entryFor b pb cb]).devices
        (QualifiedName ca.vendor ca.cls da.name)
        = some ⟨da, mkCSpec (entryFor a pa ca) ca⟩ := by
  rw [refreshScan_two a pa ca b pb cb hnA]
  have hlow : ∀ d ∈ cb.devices, ∀ r,
      alLookup (scanStateTwo a pa ca b pb cb).devices
        (QualifiedName (mkCSpec (entryFor b pb cb) cb).vendor
          (mkCSpec (entryFor b pb cb) cb).cls d.name) = some r →
      (mkCSpec (entryFor b pb cb) cb).priority < r.spec.priority := by
    intro d _ r hr
    rw [lookup_scanStateTwo_spec a pa ca b pb cb _ r hr]
    exact hlt
  obtain ⟨he, hr2, hcf, hk⟩ := foldDevices_keep (mkCSpec (entryFor b pb cb) cb)
    cb.devices (scanStateTwo a pa ca b pb cb) hnB hlow
  exact ⟨he, hr2, hcf, hk _ _ (lookup_scanStateTwo_mem a pa ca b pb cb hnA hda)⟩

theorem scan_two_conflict (a b : GoStr) (p : Nat) (ca cb : SpecContent)
    (da db : Device)
    (hv : cb.vendor = ca.vendor) (hc : cb.cls = ca.cls)
    (hnA : (ca.devices.map Device.name).Nodup)
    (hnB : (cb.devices.map Device.name).Nodup)
    (hda : da ∈ ca.devices) (hdb : db ∈ cb.devices) (hname : db.name = da.name) :
    QualifiedName ca.vendor ca.cls da.name
        ∈ (refreshScan [entryFor b p cb, entryFor a p ca]).conflicts
    ∧ CDIError.conflict (QualifiedName ca.vendor ca.cls da.name) (goClean a) (goClean b)
        ∈ errsAt (refreshScan [entryFor b p cb, entryFor a p ca]) (goClean a)
    ∧ CDIError.conflict (QualifiedName ca.vendor ca.cls da.name) (goClean a) (goClean b)
        ∈ errsAt (refreshScan [entryFor b p cb, entryFor a p ca]) (goClean b) := by
  rw [refreshScan_two b p cb a p ca hnB]
  have heq : ∀ d ∈ ca.devices, ∀ r,
      alLookup (scanStateTwo b p cb a p ca).devices
        (QualifiedName (mkCSpec (entryFor a p ca) ca).vendor
          (mkCSpec (entryFor a p ca) ca).cls d.name) = some r →
      r.spec.priority = (mkCSpec (entryFor a p ca) ca).priority := by
    intro d _ r hr
    rw [lookup_scanStateTwo_spec b p cb a p ca _ r hr]
    rfl
  have hold : alLookup (scanStateTwo b p cb a p ca).devices
      (QualifiedName (mkCSpec (entryFor a p ca) ca).vendor
        (mkCSpec (entryFor a p ca) ca).cls da.name)
      = some ⟨db, mkCSpec (entryFor b p cb) cb⟩ := by
    have hm := lookup_scanStateTwo_mem b p cb a p ca hnB hdb
    rw [hv, hc, hname] at hm
    exact hm
  obtain ⟨hconf, herrA, herrB⟩ := foldDevices_conflict (mkCSpec (entryFor a p ca) ca)
    ca.devices (scanStateTwo b p cb a p ca) da ⟨db, mkCSpec (entryFor b p cb) cb⟩
    hnA heq hda hold
  exact ⟨hconf, herrA, herrB⟩

end CDI

namespace CDI

theorem filter_conflicts_nil (m : List (GoStr × DeviceRef)) :
    (m.filter fun kv => !(([] : List GoStr).contains kv.1)) = m := by
  induction m with
  | nil => rfl
  | cons kv rest ih =>
    rw [List.filter_cons_of_pos rfl, ih]

theorem errsAt_of_errors_nil {st : RState} (h : st.errors = []) (p : GoStr) :
    errsAt st p = [] := by
  unfold errsAt
  rw [h]
  rfl

/-- C2.  Conflict resolution in the Store: for two specs at distinct paths
`a` and `b` of the same kind that both declare the device `dname`, after a
refresh (in either scan order): if `a`'s priority is strictly greater,
resolving the qualified name returns `a`'s device and no error is recorded
for either path; if the priorities are equal, resolution fails (the name is
removed from the index) and a conflict error carrying both cleaned file
paths is recorded against both paths. -/
theorem conflict_resolution (vendor cls dname a b : GoStr) (pa pb : Nat)
    (ca cb : SpecContent) (da db : Device) (entries : List ScanEntry)
    (hva : ca.vendor = vendor) (hcla : ca.cls = cls)
    (hvb : cb.vendor = vendor) (hclb : cb.cls = cls)
    (hnA : (ca.devices.map Device.name).Nodup)
    (hnB : (cb.devices.map Device.name).Nodup)
    (hdaM : da ∈ ca.devices) (hdaN : da.name = dname)
    (hdbM : db ∈ cb.devices) (hdbN : db.name = dname)
    (horder : entries = [entryFor b pb cb, entryFor a pa ca]
      ∨ entries = [entryFor a pa ca, entryFor b pb cb]) :
    (pb < pa →
      resolveDevice (Refresh entries).1 (QualifiedName vendor cls dname)
          = some ⟨da, mkCSpec (entryFor a pa ca) ca⟩
        ∧ errsAt (Refresh entries).1 (goClean a) = []
        ∧ errsAt (Refresh entries).1 (goClean b) = [])
    ∧ (pa = pb →
      resolveDevice (Refresh entries).1 (QualifiedName vendor cls dname) = none
        ∧ ∃ x y : GoStr,
            ((x = goClean a ∧ y = goClean b) ∨ (x = goClean b ∧ y = goClean a))
            ∧ CDIError.conflict (QualifiedName vendor cls dname) x y
                ∈ errsAt (Refresh entries).1 (goClean a)
            ∧ CDIError.conflict (QualifiedName vendor cls dname) x y
                ∈ errsAt (Refresh entries).1 (goClean b)) := by
  subst hva hcla hdaN
  constructor
  · intro hlt
    rcases horder with ho | ho <;> subst ho
    · obtain ⟨he, _, hcf, hlk⟩ := scan_two_replace a b pa pb ca cb da hnA hnB hdaM hlt
      refine ⟨?_, errsAt_of_errors_nil he _, errsAt_of_errors_nil he _⟩
      show alLookup (List.filter _ (refreshScan [entryFor b pb cb, entryFor a pa ca]).devices) _ = _
      rw [hcf, filter_conflicts_nil]
      exact hlk
    · obtain ⟨he, _, hcf, hlk⟩ := scan_two_keep a b pa pb ca cb da hnA hnB hdaM hlt
      refine ⟨?_, errsAt_of_errors_nil he _, errsAt_of_errors_nil he _⟩
      show alLookup (List.filter _ (refreshScan [entryFor a pa ca, entryFor b pb cb]).devices) _ = _
      rw [hcf, filter_conflicts_nil]
      exact hlk
  · intro hpe
    subst hpe
    rcases horder with ho | ho <;> subst ho
    · obtain ⟨hconf, herrA, herrB⟩ := scan_two_conflict a b pa ca cb da db hvb hclb
        hnA hnB hdaM hdbM hdbN
      refine ⟨alLookup_filter_conflicts hconf, goClean a, goClean b,
        Or.inl ⟨rfl, rfl⟩, herrA, herrB⟩
    · obtain ⟨hconf, herrA, herrB⟩ := scan_two_conflict b a pa cb ca db da
        (hvb.trans hvb.symm ▸ hvb.symm ▸ rfl) (hclb.trans hclb.symm ▸ hclb.symm ▸ rfl)
        hnB hnA hdbM hdaM hdbN.symm
      rw [hvb, hclb, hdbN] at hconf herrA herrB
      refine ⟨alLookup_filter_conflicts hconf, goClean b, goClean a,
        Or.inr ⟨rfl, rfl⟩, herrB, herrA⟩

end CDI

namespace CDI

/-- Concrete example data mirroring the repository's shadowing/conflict
tests: two single-device specs of kind `vendor1.com/device` declaring
`dev1`. -/
def exEditsA : ContainerEdits :=
  ⟨["VENDOR1_VAR1=VAL1".toList], [], [], [], none, []⟩

def exEditsB : ContainerEdits :=
  ⟨["OVERRIDE=1".toList], [], [], [], none, []⟩

def exDevA : Device :=
  ⟨"dev1".toList, [], exEditsA⟩

def exDevB : Device :=
  ⟨"dev1".toList, [], exEditsB⟩

def exCa : SpecContent :=
  ⟨"vendor1.com".toList, "device".toList, ⟨[], [], [], [], none, []⟩, [exDevA]⟩

def exCb : SpecContent :=
  ⟨"vendor1.com".toList, "device".toList, ⟨[], [], [], [], none, []⟩, [exDevB]⟩

/-- C2 witness: the conflict-resolution theorem evaluated on two concrete
single-device specs, scanned lower-priority file first. -/
theorem conflict_resolution_witness :
    (((0 : Nat) < 1) →
      resolveDevice (Refresh [entryFor ("/etc/cdi/b.json".toList) 0 exCb,
            entryFor ("/var/run/cdi/a.json".toList) 1 exCa]).1
          (QualifiedName ("vendor1.com".toList) ("device".toList) ("dev1".toList))
          = some ⟨exDevA, mkCSpec (entryFor ("/var/run/cdi/a.json".toList) 1 exCa) exCa⟩
        ∧ errsAt (Refresh [entryFor ("/etc/cdi/b.json".toList) 0 exCb,
            entryFor ("/var/run/cdi/a.json".toList) 1 exCa]).1
            (goClean ("/var/run/cdi/a.json".toList)) = []
        ∧ errsAt (Refresh [entryFor ("/etc/cdi/b.json".toList) 0 exCb,
            entryFor ("/var/run/cdi/a.json".toList) 1 exCa]).1
            (goClean ("/etc/cdi/b.json".toList)) = [])
    ∧ (((1 : Nat) = 0) →
      resolveDevice (Refresh [entryFor ("/etc/cdi/b.json".toList) 0 exCb,
            entryFor ("/var/run/cdi/a.json".toList) 1 exCa]).1
          (QualifiedName ("vendor1.com".toList) ("device".toList) ("dev1".toList)) = none
        ∧ ∃ x y : GoStr,
            ((x = goClean ("/var/run/cdi/a.json".toList)
                ∧ y = goClean ("/etc/cdi/b.json".toList))
              ∨ (x = goClean ("/etc/cdi/b.json".toList)
                ∧ y = goClean ("/var/run/cdi/a.json".toList)))
            ∧ CDIError.conflict
                (QualifiedName ("vendor1.com".toList) ("device".toList) ("dev1".toList)) x y
                ∈ errsAt (Refresh [entryFor ("/etc/cdi/b.json".toList) 0 exCb,
                    entryFor ("/var/run/cdi/a.json".toList) 1 exCa]).1
                  (goClean ("/var/run/cdi/a.json".toList))
            ∧ CDIError.conflict
                (QualifiedName ("vendor1.com".toList) ("device".toList) ("dev1".toList)) x y
                ∈ errsAt (Refresh [entryFor ("/etc/cdi/b.json".toList) 0 exCb,
                    entryFor ("/var/run/cdi/a.json".toList) 1 exCa]).1
                  (goClean ("/etc/cdi/b.json".toList))) :=
  conflict_resolution ("vendor1.com".toList) ("device".toList) ("dev1".toList)
    ("/var/run/cdi/a.json".toList) ("/etc/cdi/b.json".toList) 1 0 exCa exCb exDevA exDevB
    [entryFor ("/etc/cdi/b.json".toList) 0 exCb,
     entryFor ("/var/run/cdi/a.json".toList) 1 exCa]
    (by decide) (by decide) (by decide) (by decide) (by decide) (by decide)
    (by decide) (by decide) (by decide) (by decide) (Or.inl rfl)

end CDI

namespace CDI

/-- Modelled from the spec: `ContainerEdits.Append` (spec §4.5; the
implementation `pkg/cdi/container-edits.go` is not among the sources, only
its tests): lists concatenate in order, `additionalGIDs` concatenate
without deduplication, and a present `intelRdt` block replaces the
previous one. -/
def appendEdits (e o : ContainerEdits) : ContainerEdits :=
  ⟨e.env ++ o.env, e.deviceNodes ++ o.deviceNodes, e.hooks ++ o.hooks,
   e.mounts ++ o.mounts,
   match o.intelRdt with
   | some r => some r
   | none => e.intelRdt,
   e.additionalGIDs ++ o.additionalGIDs⟩

/-- Modelled from the spec: the edit-gathering phase of `InjectDevices`
(spec §4.8; `pkg/cdi/cache.go` is not among the sources, only its tests and
callers): in request order, the spec-level edits of a device's spec are
appended the first time any device of that spec is seen (the spec's path
standing for the spec's identity, unique within a cache snapshot), then the
device-level edits are appended. -/
def gatherEdits (index : List (GoStr × DeviceRef)) (names : List GoStr) : ContainerEdits :=
  (names.foldl
    (fun acc n =>
      match alLookup index n with
      | none => acc
      | some d =>
        if acc.2.contains d.spec.path then
          (appendEdits acc.1 d.dev.containerEdits, acc.2)
        else
          (appendEdits (appendEdits acc.1 d.spec.edits) d.dev.containerEdits,
           acc.2 ++ [d.spec.path]))
    ((⟨[], [], [], [], none, []⟩ : ContainerEdits), ([] : List GoStr))).1

/-- Modelled from the spec: `InjectDevices` (spec §4.8; the implementation
is not among the sources, only its tests and callers).  Every requested
qualified name is resolved against the device index; when all resolve, the
gathered edits are applied once by the composer `applyFn`; when any name is
unresolved, the unresolved names and a non-nil error (the `true` flag) are
returned and the composer is never invoked — the configuration is returned
untouched. -/
def injectDevices {Config : Type} (applyFn : ContainerEdits → Config → Config)
    (index : List (GoStr × DeviceRef)) (cfg : Config) (names : List GoStr) :
    Config × List GoStr × Bool :=
  if (names.filter fun n => (alLookup index n).isNone).isEmpty then
    (applyFn (gatherEdits index names) cfg, [], false)
  else
    (cfg, names.filter fun n => (alLookup index n).isNone, true)

/-- C1.  Injection is transactional: for every composer, device index,
runtime config and request list, if some requested name does not resolve
then `injectDevices` returns exactly the unresolved names together with a
non-nil error and the caller's config completely unchanged — for every
composer function, so no edit is applied before full resolution. -/
theorem inject_transactional {Config : Type}
    (applyFn : ContainerEdits → Config → Config)
    (index : List (GoStr × DeviceRef)) (cfg : Config) (names : List GoStr)
    (h : ∃ n ∈ names, alLookup index n = none) :
    injectDevices applyFn index cfg names
      = (cfg, names.filter fun n => (alLookup index n).isNone, true) := by
  unfold injectDevices
  have hne : (names.filter fun n => (alLookup index n).isNone) ≠ [] := by
    obtain ⟨n, hn, hnone⟩ := h
    intro hf
    have hmem : n ∈ names.filter fun n => (alLookup index n).isNone :=
      List.mem_filter.mpr ⟨hn, by simp [hnone]⟩
    rw [hf] at hmem
    cases hmem
  rw [if_neg (by simpa [List.isEmpty_iff] using hne)]

/-- C1 witness: injection of one unknown name against an empty index, with
a composer that visibly rewrites the config, applied at a concrete
config. -/
theorem inject_transactional_witness :
    (∃ n ∈ ["vendor1.com/device=dev2".toList], alLookup ([] : List (GoStr × DeviceRef)) n = none)
    ∧ injectDevices (fun e c => c ++ e.env) ([] : List (GoStr × DeviceRef))
        ["CFG=1".toList] ["vendor1.com/device=dev2".toList]
      = (["CFG=1".toList],
         ["vendor1.com/device=dev2".toList].filter
           fun n => (alLookup ([] : List (GoStr × DeviceRef)) n).isNone,
         true) :=
  ⟨⟨"vendor1.com/device=dev2".toList, List.mem_singleton_self _, rfl⟩,
   inject_transactional (fun e c => c ++ e.env) [] ["CFG=1".toList]
     ["vendor1.com/device=dev2".toList]
     ⟨"vendor1.com/device=dev2".toList, List.mem_singleton_self _, rfl⟩⟩

end CDI
